import Mathlib

/-! Verification of the Embucket/benchmarks plan-parsing core.

Shallow embedding of the plan-parsing / normalization logic of the
benchmarks repository, together with proofs settling the frozen claims.

Conventions of the embedding:
* Python floats are modelled as rationals (`ℚ`); every computation the
  claims talk about is exact (or correctly rounded identically on both
  sides), so no claim depends on binary rounding.
* Python dicts whose keys are fixed field names become structures;
  dicts used as string-keyed maps become association lists in insertion
  order (keys are unique in all inputs produced by the code).
* Fallible Python code (uncaught exceptions) is modelled with `Option`
  / `Except`; `none` / `.error` marks a raised exception.
* `x or y` on Python values uses truthiness (``""``, `0.0`, `[]`, `None`
  are falsy); the helpers below reproduce that.
-/

namespace Embench

/-- Python `x or 0.0` for an optional float field: `None` and `0.0` are
falsy and give `0.0`, any other number is returned itself, so this is
exactly `Option.getD · 0`. -/
def or_zero (x : Option ℚ) : ℚ := x.getD 0

/-- Python truthiness of an optional string: `None` and `""` are falsy. -/
def truthy_str : Option String → Bool
  | none => false
  | some s => !(s == "")

/-- Python `a or b or d` over optional strings with truthiness. -/
def py_or_str (a b : Option String) (d : String) : String :=
  match a with
  | some s => if s = "" then (match b with
      | some t => if t = "" then d else t
      | none => d) else s
  | none => match b with
    | some t => if t = "" then d else t
    | none => d

namespace DuckDB

/-- One node of the DuckDB JSON profile tree
(the input of `get_execution_time_breakdown`,
`src/duckdb/execute_queries.py`).  Fields the code reads via
`node.get(...)`; absent keys are `none`. -/
structure Node where
  latency : Option ℚ
  operator_name : Option String
  operator_type : Option String
  operator_timing : Option ℚ
  cpu_time : Option ℚ
  blocked_thread_time : Option ℚ
  operator_cardinality : Option Int
  operator_rows_scanned : Option Int
  total_bytes_read : Option Int
  total_bytes_written : Option Int
  children : List Node

/-- One entry of `breakdown["operators"]`
(`src/duckdb/execute_queries.py`, lines 61-78). -/
structure OpEntry where
  name : String
  type : String
  timing : ℚ
  cpu_time : ℚ
  blocked_time : ℚ
  rows_produced : Int
  rows_scanned : Int
  bytes_read : Int
  bytes_written : Int
  overall_percentage : ℚ
  processing_percentage : ℚ
  synchronization_percentage : ℚ
deriving Repr, DecidableEq

mutual
/-- Models `find_latency` (`execute_queries.py` lines 31-38): the first
non-`None` `latency` field found in a depth-first pre-order walk. -/
def find_latency (n : Node) : Option ℚ :=
  match n with
  | ⟨lat, _, _, _, _, _, _, _, _, _, cs⟩ =>
    match lat with
    | some v => some v
    | none => find_latency_list cs

/-- Models `find_latency` over a `children` list (the `for ch in ...` loop). -/
def find_latency_list (l : List Node) : Option ℚ :=
  match l with
  | [] => none
  | c :: cs =>
    match find_latency c with
    | some v => some v
    | none => find_latency_list cs
end

/-- Models `root_latency = float(find_latency(profile_data) or 0.0)`
(line 40); `0.0` is falsy so this is `getD 0`. -/
def root_latency (p : Node) : ℚ := (find_latency p).getD 0

/-- The per-operator entry built inside `walk_collect` (lines 56-78)
for a node whose `operator_name` or `operator_type` is truthy. -/
def mk_entry (rl : ℚ) (onm oty : Option String) (ot ct bt : Option ℚ)
    (oc ors tbr tbw : Option Int) : OpEntry :=
  let t := or_zero ot
  let c := or_zero ct
  let b := or_zero bt
  { name := py_or_str onm oty "UNKNOWN"
    type := py_or_str oty onm "UNKNOWN"
    timing := t
    cpu_time := c
    blocked_time := b
    rows_produced := oc.getD 0
    rows_scanned := ors.getD 0
    bytes_read := tbr.getD 0
    bytes_written := tbw.getD 0
    overall_percentage := if 0 < rl then 100 * (t / rl) else 0
    processing_percentage := if 0 < rl then 100 * (min c t / rl) else 0
    synchronization_percentage := if 0 < rl then 100 * (b / rl) else 0 }

mutual
/-- Models `walk_collect` (lines 50-87): pre-order collection of operator
entries together with the accumulated `processing` (sum of
`min(cpu_time, operator_timing)`) and `synchronization` (sum of
`blocked_thread_time`) totals.  Rational addition is exact, so
accumulating by recursion gives the same totals as Python's in-place
`+=` in visit order. -/
def walk_collect (rl : ℚ) (n : Node) : List OpEntry × ℚ × ℚ :=
  match n with
  | ⟨_, onm, oty, ot, ct, bt, oc, ors, tbr, tbw, cs⟩ =>
    let rest := walk_collect_list rl cs
    if truthy_str onm || truthy_str oty then
      (mk_entry rl onm oty ot ct bt oc ors tbr tbw :: rest.1,
       min (or_zero ct) (or_zero ot) + rest.2.1,
       or_zero bt + rest.2.2)
    else rest

/-- Models `walk_collect` over a `children` list. -/
def walk_collect_list (rl : ℚ) (l : List Node) : List OpEntry × ℚ × ℚ :=
  match l with
  | [] => ([], 0, 0)
  | c :: cs =>
    let r := walk_collect rl c
    let rs := walk_collect_list rl cs
    (r.1 ++ rs.1, r.2.1 + rs.2.1, r.2.2 + rs.2.2)
end

/-- Stable insertion of an entry after all already-placed entries with a
key not smaller than its own. -/
def insert_desc (a : OpEntry) : List OpEntry → List OpEntry
  | [] => [a]
  | b :: bs =>
    if b.overall_percentage < a.overall_percentage then a :: b :: bs
    else b :: insert_desc a bs

/-- Models line 96, `operators.sort(key=..., reverse=True)`: a stable
sort descending by `overall_percentage`.  A stable insertion sort and
Python's stable Timsort produce the identical list for the same key
order, since a stable sort's output is uniquely determined. -/
def sort_by_overall_desc (l : List OpEntry) : List OpEntry :=
  l.foldl (fun acc a => insert_desc a acc) []

/-- The `breakdown` dict returned by `get_execution_time_breakdown`
(scalar fields and the operator list; the `operator_tree` part is
modelled separately below). -/
structure Breakdown where
  overall_time : ℚ
  processing : ℚ
  synchronization : ℚ
  operators : List OpEntry
  processing_percentage : ℚ
  synchronization_percentage : ℚ
deriving Repr, DecidableEq

/-- Models `get_execution_time_breakdown` (lines 10-96): root latency
discovery, the `walk_collect` pass, aggregate percentages (guarded by
`root_latency > 0`), and the descending sort of the operator list. -/
def get_execution_time_breakdown (p : Node) : Breakdown :=
  let rl := root_latency p
  let w := walk_collect rl p
  { overall_time := rl
    processing := w.2.1
    synchronization := w.2.2
    operators := sort_by_overall_desc w.1
    processing_percentage := if 0 < rl then 100 * (w.2.1 / rl) else 0
    synchronization_percentage := if 0 < rl then 100 * (w.2.2 / rl) else 0 }

/-- The end-to-end scenario profile of claim C2: a single operator node
with `operator_timing = 2.0`, `cpu_time = 3.0`,
`blocked_thread_time = 0.5`, whose `latency` field makes the root
wall-clock latency discoverable as `2.0`. -/
def single_op_profile : Node :=
  ⟨some 2, some "SINGLE_OP", none, some 2, some 3, some (1/2),
   none, none, none, none, []⟩

/-- A zero-latency profile: operator node with a `latency` of `0`. -/
def zero_latency_profile : Node :=
  ⟨some 0, some "SCAN", none, some 1, some 1, some 1, none, none, none,
   none, []⟩

mutual
/-- Spec-side description (for claim C2): the operator nodes of a
profile in pre-order — the nodes whose `operator_name` or
`operator_type` is truthy. -/
def operator_nodes (n : Node) : List Node :=
  match n with
  | ⟨lat, onm, oty, ot, ct, bt, oc, ors, tbr, tbw, cs⟩ =>
    if truthy_str onm || truthy_str oty then
      ⟨lat, onm, oty, ot, ct, bt, oc, ors, tbr, tbw, cs⟩ :: operator_nodes_list cs
    else operator_nodes_list cs

/-- Spec-side operator-node collection over a list of children. -/
def operator_nodes_list (l : List Node) : List Node :=
  match l with
  | [] => []
  | c :: cs => operator_nodes c ++ operator_nodes_list cs
end

/-- Spec-side total processing time: the sum over all operator nodes of
`min(cpu_time, operator_timing)` (claim C2's words). -/
def spec_processing (p : Node) : ℚ :=
  ((operator_nodes p).map
    (fun n => min (or_zero n.cpu_time) (or_zero n.operator_timing))).sum

/-- Spec-side total synchronization time: the sum over all operator
nodes of `blocked_thread_time`. -/
def spec_synchronization (p : Node) : ℚ :=
  ((operator_nodes p).map (fun n => or_zero n.blocked_thread_time)).sum

/-- Payload of an operator-tree dict as read back by `assign_ids` via
`n.get(...)` (lines 167-180): the `op_entry` dicts carry every field,
the synthetic `QUERY` root only a few, so each field is optional. -/
structure TreeInfo where
  name : Option String
  type : Option String
  timing : Option ℚ
  overall_percentage : Option ℚ
  processing_percentage : Option ℚ
  synchronization_percentage : Option ℚ
  rows_produced : Option Int
  rows_scanned : Option Int
  bytes_read : Option Int
  bytes_written : Option Int
deriving Repr, DecidableEq

/-- A nested operator-tree dict (payload plus ordered `children`). -/
inductive OpTree where
  | mk (info : TreeInfo) (children : List OpTree)

/-- Models `op_entry` (lines 102-126): the payload of a tree node built from a
profile node (children are attached by `build_operator_subtree`). -/
def op_entry (rl : ℚ) (n : Node) : TreeInfo :=
  let t := or_zero n.operator_timing
  let c := or_zero n.cpu_time
  let b := or_zero n.blocked_thread_time
  { name := some (py_or_str n.operator_name n.operator_type "UNKNOWN")
    type := some (py_or_str n.operator_type n.operator_name "UNKNOWN")
    timing := some t
    overall_percentage := some (if 0 < rl then 100 * (t / rl) else 0)
    processing_percentage := some (if 0 < rl then 100 * (min c t / rl) else 0)
    synchronization_percentage := some (if 0 < rl then 100 * (b / rl) else 0)
    rows_produced := some (n.operator_cardinality.getD 0)
    rows_scanned := some (n.operator_rows_scanned.getD 0)
    bytes_read := some (n.total_bytes_read.getD 0)
    bytes_written := some (n.total_bytes_written.getD 0) }

mutual
/-- Models `build_operator_subtree` (lines 128-148).  The Python function
returns a single dict when the node is an operator and a list
otherwise; its caller wraps a dict into a one-element list, so the
uniform return type is the list of operator subtrees found at `n`. -/
def build_operator_subtree (rl : ℚ) (n : Node) : List OpTree :=
  match n with
  | ⟨lat, onm, oty, ot, ct, bt, oc, ors, tbr, tbw, cs⟩ =>
    let child_ops := build_operator_subtree_list rl cs
    if truthy_str onm || truthy_str oty then
      [OpTree.mk (op_entry rl ⟨lat, onm, oty, ot, ct, bt, oc, ors, tbr, tbw, cs⟩) child_ops]
    else child_ops

/-- The `for ch in (node.get('children') or [])` loop of
`build_operator_subtree`. -/
def build_operator_subtree_list (rl : ℚ) (l : List Node) : List OpTree :=
  match l with
  | [] => []
  | c :: cs => build_operator_subtree rl c ++ build_operator_subtree_list rl cs
end

/-- The synthetic `query_root` dict (lines 153-159); fields absent from
that dict are `none`. -/
def query_root (p : Node) : OpTree :=
  let rl := root_latency p
  OpTree.mk
    { name := some "QUERY"
      type := some "ROOT"
      timing := some rl
      overall_percentage := some (if 0 < rl then 100 else 0)
      processing_percentage := none
      synchronization_percentage := none
      rows_produced := none
      rows_scanned := none
      bytes_read := none
      bytes_written := none }
    (build_operator_subtree rl p)

/-- One element of the flat `nodes` list built by `assign_ids`
(lines 167-181). -/
structure FlatNode where
  id : Nat
  parent_id : Option Nat
  depth : Nat
  info : TreeInfo
deriving Repr, DecidableEq

/-- One element of the flat `edges` list (line 184). -/
structure Edge where
  parent : Nat
  child : Nat
deriving Repr, DecidableEq

mutual
/-- Models `assign_ids` (lines 164-185): depth-first pre-order id assignment.
The shared `counter`/`nodes`/`edges` state is threaded explicitly; the
returned `Nat` is the counter after the subtree. -/
def assign_ids (t : OpTree) (parent_id : Option Nat) (depth : Nat)
    (c : Nat) : List FlatNode × List Edge × Nat :=
  match t with
  | .mk info cs =>
    let r := assign_ids_list cs c (depth + 1) (c + 1)
    (⟨c, parent_id, depth, info⟩ :: r.1, r.2.1, r.2.2)

/-- The `for ch in n.get("children", [])` loop of `assign_ids`: each
child subtree is assigned ids, then the edge `parent → child` is
appended (Python appends it after the recursive call returns). -/
def assign_ids_list (cs : List OpTree) (pid : Nat) (depth : Nat)
    (c : Nat) : List FlatNode × List Edge × Nat :=
  match cs with
  | [] => ([], [], c)
  | t :: ts =>
    let r := assign_ids t (some pid) depth c
    let rs := assign_ids_list ts pid depth r.2.2
    (r.1 ++ rs.1, (r.2.1 ++ [⟨pid, c⟩]) ++ rs.2.1, rs.2.2)
end

mutual
/-- Number of nodes of an operator tree. -/
def tree_size : OpTree → Nat
  | .mk _ cs => 1 + forest_size cs

/-- Number of nodes of a forest. -/
def forest_size : List OpTree → Nat
  | [] => 0
  | t :: ts => tree_size t + forest_size ts
end

mutual
/-- Left-to-right depth-first pre-order listing of the payloads of an
operator tree (the reference order for claim C1). -/
def preorder_infos : OpTree → List TreeInfo
  | .mk info cs => info :: preorder_infos_list cs

/-- Pre-order listing of a forest. -/
def preorder_infos_list : List OpTree → List TreeInfo
  | [] => []
  | t :: ts => preorder_infos t ++ preorder_infos_list ts
end

/-- A payload carrying no fields, for concrete tree instances. -/
def c9_info : TreeInfo :=
  ⟨none, none, none, none, none, none, none, none, none, none⟩

/-- A two-node operator tree: a root with one child. -/
def c9_tree : OpTree := .mk c9_info [.mk c9_info []]

end DuckDB

/-! Section: Python string primitives

List-of-characters implementations of the Python string operations the
parsing code uses (`strip`, `rstrip`, `lstrip(" ")`, `endswith`,
`startswith`, `splitlines`, `replace`).  Python's whitespace set for
`strip` includes `\x0b`/`\x0c`, which never occur in plan artifacts;
`Char.isWhitespace` (space, tab, CR, LF) models it here. -/

/-- Models `s.strip()`. -/
def py_strip (s : String) : String :=
  ⟨((s.toList.dropWhile Char.isWhitespace).reverse.dropWhile
      Char.isWhitespace).reverse⟩

/-- Models `s.rstrip()`. -/
def py_rstrip (s : String) : String :=
  ⟨(s.toList.reverse.dropWhile Char.isWhitespace).reverse⟩

/-- Models `s.lstrip(" ")` — strips spaces only. -/
def py_lstrip_space (s : String) : String :=
  ⟨s.toList.dropWhile (· = ' ')⟩

/-- Number of leading space characters
(`len(text) - len(text.lstrip(" "))`). -/
def leading_spaces (s : String) : Nat :=
  (s.toList.takeWhile (· = ' ')).length

/-- Boolean list-prefix test (recursive, so concrete instances
evaluate by rewriting). -/
def list_is_pre : List Char → List Char → Bool
  | [], _ => true
  | _ :: _, [] => false
  | a :: as, b :: bs => a == b && list_is_pre as bs

/-- Boolean list-suffix test. -/
def list_is_suf (a b : List Char) : Bool :=
  list_is_pre a.reverse b.reverse

/-- Models `s.endswith(suffix)`. -/
def py_endswith (s suffix : String) : Bool :=
  list_is_suf suffix.toList s.toList

/-- Models `s.startswith(prefix_)`. -/
def py_startswith (s pre : String) : Bool :=
  list_is_pre pre.toList s.toList

/-- Models `s.endswith((a, b, ...))` — any of the suffixes. -/
def py_endswith_any (s : String) (suffixes : List String) : Bool :=
  suffixes.any (py_endswith s)

/-- One replacement pass for `str.replace` on character lists
(left-to-right, non-overlapping occurrences). -/
def replace_list (pat rep : List Char) : List Char → List Char
  | [] => []
  | c :: rest =>
    if h : (list_is_pre pat (c :: rest) && !pat.isEmpty) = true then
      rep ++ replace_list pat rep ((c :: rest).drop pat.length)
    else
      c :: replace_list pat rep rest
termination_by cs => cs.length
decreasing_by
  · have hp : 1 ≤ pat.length := by
      cases pat with
      | nil => simp at h
      | cons p ps => simp
    simp
    omega
  · simp

/-- Models `s.replace(pat, rep)` for a nonempty pattern. -/
def py_replace (s pat rep : String) : String :=
  ⟨replace_list pat.toList rep.toList s.toList⟩

/-- Models `str.splitlines()`: split on `\n`, `\r`, `\r\n`; no trailing empty
line for a trailing newline; `""` gives `[]`. -/
def split_lines_aux (cs : List Char) : List (List Char) :=
  match h : cs.findIdx? (fun c => c = '\n' ∨ c = '\r') with
  | none => if cs = [] then [] else [cs]
  | some i =>
    if (cs.drop i).take 2 = ['\r', '\n'] then
      cs.take i :: split_lines_aux (cs.drop (i + 2))
    else
      cs.take i :: split_lines_aux (cs.drop (i + 1))
termination_by cs.length
decreasing_by
  all_goals have hi := (List.findIdx?_eq_some_iff_findIdx_eq.mp h).1
  all_goals simp
  all_goals omega

/-- Models `text.splitlines()` as a list of strings. -/
def py_splitlines (s : String) : List String :=
  (split_lines_aux s.toList).map (⟨·⟩)

/-! Section: Python numeric-literal parsing

`float(str)` and `int(str)` as used by the unit normalizer.  The model
covers the grammar the normalizer can meet: optional surrounding
whitespace, an optional sign, decimal digit runs with single
underscores between digits, a decimal point, an exponent, and the
special spellings `inf`/`infinity`/`nan` (case-insensitive). -/

/-- A Python float value: finite (exact rational), infinities, NaN. -/
inductive PyFloat where
  | fin (q : ℚ)
  | inf
  | ninf
  | nan
deriving Repr, DecidableEq

/-- Continue a digit run: `(digit | '_' digit)*` greedily (Python
permits single underscores between digits). -/
def digit_run_aux : List Char → List Char × List Char
  | '_' :: c :: rest =>
    if c.isDigit then
      let r := digit_run_aux rest
      (c :: r.1, r.2)
    else ([], '_' :: c :: rest)
  | c :: rest =>
    if c.isDigit then
      let r := digit_run_aux rest
      (c :: r.1, r.2)
    else ([], c :: rest)
  | [] => ([], [])
termination_by structural cs => cs

/-- Parse a nonempty digit run with underscore grouping; returns the
digits and the remaining input. -/
def parse_digits : List Char → Option (List Char × List Char)
  | c :: rest =>
    if c.isDigit then
      let r := digit_run_aux rest
      some (c :: r.1, r.2)
    else none
  | [] => none

/-- Numeric value of a digit list. -/
def digits_val (ds : List Char) : Nat :=
  ds.foldl (fun a c => 10 * a + (c.toNat - '0'.toNat)) 0

/-- Lower-cased character list equality against a literal. -/
def ci_is (cs : List Char) (lit : String) : Bool :=
  cs.map Char.toLower == lit.toList

/-- Models `10 ^ n` as a rational (kept in `ℕ` so concrete values reduce). -/
def qpow10 (n : Nat) : ℚ := ((10 ^ n : ℕ) : ℚ)

/-- Models `10 ^ e` for a signed exponent. -/
def qpow10z (e : Int) : ℚ :=
  if 0 ≤ e then qpow10 e.toNat else 1 / qpow10 (-e).toNat

/-- Parse the optional exponent part and require the input end. -/
def py_float_exp (mant : ℚ) (cs : List Char) : Option ℚ :=
  match cs with
  | [] => some mant
  | e :: rest =>
    if e = 'e' ∨ e = 'E' then
      let (esign, rest2) : ℚ × List Char := match rest with
        | '+' :: r => (1, r)
        | '-' :: r => (-1, r)
        | r => (1, r)
      match parse_digits rest2 with
      | some (ds, []) =>
        some (mant * qpow10z ((esign * (digits_val ds : ℚ)).num))
      | _ => none
    else none

/-- Parse the body of a float literal after the optional sign:
digits, optional fraction, optional exponent. -/
def py_float_body (cs : List Char) : Option ℚ :=
  let ip := parse_digits cs
  let (ipds, rest1) := match ip with
    | some (ds, r) => (ds, r)
    | none => ([], cs)
  match rest1 with
  | '.' :: rest2 =>
    let fp := parse_digits rest2
    let (fpds, rest3) := match fp with
      | some (ds, r) => (ds, r)
      | none => ([], rest2)
    if ipds = [] ∧ fpds = [] then none
    else
      let mant : ℚ := (digits_val ipds : ℚ) +
        (digits_val fpds : ℚ) / qpow10 fpds.length
      py_float_exp mant rest3
  | _ =>
    if ipds = [] then none
    else py_float_exp (digits_val ipds : ℚ) rest1

/-- Models `float(s)`: `None` models a raised `ValueError`. -/
def py_float (s : String) : Option PyFloat :=
  let cs := (py_strip s).toList
  let (sgn, body) : ℚ × List Char := match cs with
    | '+' :: r => (1, r)
    | '-' :: r => (-1, r)
    | r => (1, r)
  if ci_is body "inf" ∨ ci_is body "infinity" then
    some (if sgn = 1 then .inf else .ninf)
  else if ci_is body "nan" then some .nan
  else
    match py_float_body body with
    | some q => some (.fin (sgn * q))
    | none => none

/-- Models `int(s)`: `None` models a raised `ValueError`. -/
def py_int (s : String) : Option Int :=
  let cs := (py_strip s).toList
  let (sgn, body) : Int × List Char := match cs with
    | '+' :: r => (1, r)
    | '-' :: r => (-1, r)
    | r => (1, r)
  match parse_digits body with
  | some (ds, []) => some (sgn * digits_val ds)
  | _ => none

/-- Models `int(x)` on a float: truncation toward zero; raises
`OverflowError` on infinities and `ValueError` on NaN. -/
def py_int_of_float : PyFloat → Except String Int
  | .fin q => .ok (q.num.tdiv q.den)
  | .inf => .error "OverflowError"
  | .ninf => .error "OverflowError"
  | .nan => .error "ValueError"

namespace DataFusion

/-- A rendered tree node as seen by `_assign_node_ids`
(`src/datafusion/visualize_datafusion_output.py` lines 29-42): the
`tag` stands for the Python object identity `id(n)` used as the
de-duplication key. -/
inductive VTree where
  | mk (tag : Nat) (children : List VTree)

mutual
/-- Number of nodes of a `VTree` counting repeats. -/
def vtree_size : VTree → Nat
  | .mk _ cs => 1 + vforest_size cs

/-- Number of nodes of a list of `VTree`s. -/
def vforest_size : List VTree → Nat
  | [] => 0
  | t :: ts => vtree_size t + vforest_size ts
end

theorem vforest_size_append (a b : List VTree) :
    vforest_size (a ++ b) = vforest_size a + vforest_size b := by
  induction a with
  | nil => simp [vforest_size]
  | cons t ts ih => simp [vforest_size, ih]; ring

theorem vforest_size_reverse (a : List VTree) :
    vforest_size a.reverse = vforest_size a := by
  induction a with
  | nil => rfl
  | cons t ts ih =>
    simp [List.reverse_cons, vforest_size_append, vforest_size, ih]
    ring

theorem vtree_size_pos (t : VTree) : 1 ≤ vtree_size t := by
  cases t with
  | mk tag cs => simp [vtree_size]

/-- The `while stack` loop of `_assign_node_ids`.  The Lean list's head
is the top of the Python stack (`stack.pop()` pops from the end), so
`stack = list(roots)[::-1]` makes the initial Lean stack the roots in
order, and pushing the children (appended in order, popped last-first)
prepends `cs.reverse`.  `ids` is the insertion-ordered dict
`id(n) ↦ assigned id`. -/
def assign_node_ids_loop : List VTree → List (Nat × Nat) → Nat → List (Nat × Nat)
  | [], ids, _ => ids
  | .mk tag cs :: rest, ids, c =>
    if (ids.map Prod.fst).contains tag then
      assign_node_ids_loop (cs.reverse ++ rest) ids c
    else
      assign_node_ids_loop (cs.reverse ++ rest) (ids ++ [(tag, c)]) (c + 1)
termination_by l => vforest_size l
decreasing_by
  all_goals simp [vforest_size, vforest_size_append, vforest_size_reverse, vtree_size]

/-- Models `_assign_node_ids(roots)`: stable ids 0..N-1 assigned by the
explicit stack traversal. -/
def assign_node_ids (roots : List VTree) : List (Nat × Nat) :=
  assign_node_ids_loop roots [] 0

mutual
/-- Reference traversal order of the stack loop: pre-order visiting the
children right-to-left (the order the LIFO stack actually pops them). -/
def rtl_preorder : VTree → List Nat
  | .mk tag cs => tag :: rtl_preorder_list cs.reverse
termination_by t => 2 * vtree_size t
decreasing_by
  simp [vtree_size, vforest_size_reverse]
  omega

/-- Right-to-left pre-order of a list of trees, in list order. -/
def rtl_preorder_list : List VTree → List Nat
  | [] => []
  | t :: ts => rtl_preorder t ++ rtl_preorder_list ts
termination_by l => 2 * vforest_size l + 1
decreasing_by
  · simp [vforest_size]
    omega
  · have h := vtree_size_pos t
    simp [vforest_size]
    omega
end

mutual
/-- The claim's traversal order: pre-order visiting children
left-to-right in their stored order (follows the claim's words, for
comparison with the code's order). -/
def ltr_preorder : VTree → List Nat
  | .mk tag cs => tag :: ltr_preorder_list cs

/-- Left-to-right pre-order of a list of trees. -/
def ltr_preorder_list : List VTree → List Nat
  | [] => []
  | t :: ts => ltr_preorder t ++ ltr_preorder_list ts
end

/-- Keep the first occurrence of each tag not already in `seen`. -/
def dedup_first (seen : List Nat) : List Nat → List Nat
  | [] => []
  | x :: xs =>
    if seen.contains x then dedup_first seen xs
    else x :: dedup_first (seen ++ [x]) xs

/-- Pair each list element with consecutive ids starting at `c`. -/
def enum_from (c : Nat) : List Nat → List (Nat × Nat)
  | [] => []
  | x :: xs => (x, c) :: enum_from (c + 1) xs

/-- A sample rendered tree for claim C1: one root (tag 10) with two
children in stored order (tags 11 then 12). -/
def c1_sample : VTree := .mk 10 [.mk 11 [], .mk 12 []]

/-! Section: The unit normalizer (`src/datafusion/parse_datafusion_output.py`) -/

/-- A parsed metric value (`_parse_metric_value`'s return value): an
int (bytes or plain integer), a Python float, the duration dict
`\x7b"_value": seconds, "_unit": "s", "_raw": raw\x7d`, or the raw
string. -/
inductive MVal where
  | int (n : Int)
  | float (x : PyFloat)
  | dur (x : PyFloat) (raw : String)
  | str (s : String)
deriving Repr, DecidableEq

/-- Divide a Python float by a positive constant (used for the unit
conversions; infinities and NaN are preserved). -/
def pf_div (x : PyFloat) (d : ℚ) : PyFloat :=
  match x with
  | .fin q => .fin (q / d)
  | x => x

/-- Models `s[:-k]`. -/
def py_drop_right (s : String) (k : Nat) : String :=
  ⟨s.toList.take (s.toList.length - k)⟩

/-- Models `_to_seconds` (lines 18-36): strip, normalize the micro sign, then
dispatch on the duration suffix; a failed `float()` (`ValueError`) is
caught and yields `none`. -/
def to_seconds (value : String) : Option PyFloat :=
  let s := py_replace (py_strip value) "μs" "µs"
  if py_endswith s "s" ∧ ¬ py_endswith_any s ["ms", "µs", "us", "ns"] then
    py_float (py_drop_right s 1)
  else if py_endswith s "ms" then
    (py_float (py_drop_right s 2)).map (pf_div · 1000)
  else if py_endswith s "µs" ∨ py_endswith s "us" then
    (py_float (py_drop_right s 2)).map (pf_div · 1000000)
  else if py_endswith s "ns" then
    (py_float (py_drop_right s 2)).map (pf_div · 1000000000)
  else
    py_float s

/-- Models `_to_bytes` (lines 39-55): a trailing `" B"` is parsed through
`int(float(num))` with only `ValueError` caught (an infinite value
makes `int()` raise an uncaught `OverflowError`); otherwise a plain
`int()` parse. -/
def to_bytes (value : String) : Except String (Option Int) :=
  if py_endswith (py_strip value) " B" then
    match py_float (py_strip (py_drop_right (py_strip value) 2)) with
    | none => .ok none
    | some f =>
      match py_int_of_float f with
      | .ok n => .ok (some n)
      | .error e => if e = "ValueError" then .ok none else .error e
  else .ok (py_int (py_strip value))

/-- Models `re.fullmatch(r"[+-]?\d+", s)`. -/
def re_full_int (s : String) : Bool :=
  let body := match s.toList with
    | '+' :: r => r
    | '-' :: r => r
    | r => r
  !body.isEmpty && body.all Char.isDigit

/-- Models `re.fullmatch(r"[+-]?\d+\.\d+", s)`. -/
def re_full_float (s : String) : Bool :=
  let body := match s.toList with
    | '+' :: r => r
    | '-' :: r => r
    | r => r
  let a := body.takeWhile Char.isDigit
  let r := body.dropWhile Char.isDigit
  !a.isEmpty &&
    (match r with
     | '.' :: f => !f.isEmpty && f.all Char.isDigit
     | _ => false)

/-- The shared tail of `_parse_metric_value` (lines 79-94): try the
integer regex and `int()`, then the float regex and `float()`, then
fall back to the (stripped) raw string. -/
def metric_fallback (raw : String) : MVal :=
  match (if re_full_int raw then py_int raw else none) with
  | some n => .int n
  | none =>
    match (if re_full_float raw then py_float raw else none) with
    | some x => .float x
    | none => .str raw

/-- Models `_parse_metric_value` (lines 58-94).  An `.error` is an uncaught
exception escaping the function. -/
def parse_metric_value (v : String) : Except String MVal :=
  let raw := py_strip v
  match to_bytes raw with
  | .error e => .error e
  | .ok (some b) => .ok (.int b)
  | .ok none =>
    match to_seconds raw with
    | some x =>
      if py_endswith_any raw ["s", "ms", "µs", "us", "ns"] then
        .ok (.dur x raw)
      else .ok (metric_fallback raw)
    | none => .ok (metric_fallback raw)

/-- Models `_normalize_metrics` (lines 97-110): each duration value is
flattened into a `<key>_s` seconds entry followed by the raw string
under the base key; all other values pass through. -/
def normalize_metrics : List (String × MVal) → List (String × MVal)
  | [] => []
  | (k, .dur x raw) :: rest =>
    (k ++ "_s", .float x) :: (k, .str raw) :: normalize_metrics rest
  | (k, v) :: rest => (k, v) :: normalize_metrics rest

/-! Section: Parser A: the indented pipe-table grammar
(`parse_datafusion_output.py`) -/

/-- The non-greedy close of `_METRICS_RE` (`metrics=\[(.*?)\]\s*$`):
the capture runs to the first `]` that is followed only by whitespace
up to the end of the line. -/
def capture_to_close : List Char → Option (List Char)
  | [] => none
  | c :: rest =>
    if c = ']' ∧ rest.all Char.isWhitespace then some []
    else (capture_to_close rest).map (c :: ·)

/-- Models `re.search` for `_METRICS_RE`: the leftmost start of `metrics=[`
whose remainder has a valid close; returns the match start and the
captured blob. -/
def metrics_find : List Char → Nat → Option (Nat × List Char)
  | [], _ => none
  | c :: rest, pos =>
    if list_is_pre "metrics=[".toList (c :: rest) then
      match capture_to_close ((c :: rest).drop 9) with
      | some cap => some (pos, cap)
      | none => metrics_find rest (pos + 1)
    else metrics_find rest (pos + 1)

/-- Models `_METRICS_RE.search(line)` returning `(m.start(), blob)`. -/
def metrics_search (line : String) : Option (Nat × String) :=
  (metrics_find line.toList 0).map (fun p => (p.1, ⟨p.2⟩))

/-- Models `[A-Za-z0-9_]` (ASCII word character of `_KEYVAL_RE`). -/
def is_word_char (c : Char) : Bool :=
  c.isAlpha || c.isDigit || c == '_'

theorem len_dropWhile_le (p : Char → Bool) (l : List Char) :
    (l.dropWhile p).length ≤ l.length :=
  (List.dropWhile_sublist p).length_le

/-- Models `_KEYVAL_RE.finditer` (`([A-Za-z0-9_]+)\s*=\s*([^,]+)`): scan left
to right; at a word character, take the maximal key run, optional
whitespace, `=`, optional whitespace, then a greedy nonempty run of
non-comma characters (backtracking leaves a single whitespace character
as the value when only whitespace precedes the comma / end); on a
failed match the scan advances one character. -/
def keyval_scan (cs : List Char) : List (String × String) :=
  match cs with
  | [] => []
  | c :: rest =>
    if is_word_char c then
      let key : List Char := c :: rest.takeWhile is_word_char
      let after := rest.dropWhile is_word_char
      match h1 : after.dropWhile Char.isWhitespace with
      | '=' :: vrest =>
        let ws := vrest.takeWhile Char.isWhitespace
        let afterws := vrest.dropWhile Char.isWhitespace
        match h2 : afterws with
        | v0 :: _ =>
          if v0 = ',' then
            if ws.isEmpty then keyval_scan rest
            else (⟨key⟩, ⟨[ws.getLast?.getD ' ']⟩) :: keyval_scan afterws
          else
            (⟨key⟩, ⟨afterws.takeWhile (· ≠ ',')⟩) ::
              keyval_scan (afterws.dropWhile (· ≠ ','))
        | [] =>
          if ws.isEmpty then keyval_scan rest
          else [(⟨key⟩, ⟨[ws.getLast?.getD ' ']⟩)]
      | _ => keyval_scan rest
    else keyval_scan rest
termination_by cs.length
decreasing_by
  all_goals simp only [List.length_cons]
  all_goals try omega
  all_goals have a1 : after.length ≤ rest.length := len_dropWhile_le _ _
  all_goals have a2 : (List.dropWhile Char.isWhitespace after).length ≤ after.length :=
    len_dropWhile_le _ _
  all_goals have a3 : (List.dropWhile Char.isWhitespace after).length = vrest.length + 1 := by rw [h1]; simp
  all_goals have a4 : (List.dropWhile Char.isWhitespace vrest).length ≤ vrest.length :=
    len_dropWhile_le _ _
  all_goals try omega
  all_goals have a5 :
      ((List.dropWhile Char.isWhitespace vrest).dropWhile (· ≠ ',')).length ≤
        (List.dropWhile Char.isWhitespace vrest).length := len_dropWhile_le _ _
  all_goals omega

/-- Python dict insertion: an existing key keeps its position and takes
the new value, a new key is appended. -/
def dict_insert (d : List (String × MVal)) (k : String) (v : MVal) :
    List (String × MVal) :=
  if d.any (·.1 == k) then d.map (fun p => if p.1 = k then (k, v) else p)
  else d ++ [(k, v)]

/-- Build a Python dict (insertion-ordered association list) from
key/value pairs, later duplicates overwriting in place. -/
def dict_of (l : List (String × MVal)) : List (String × MVal) :=
  l.foldl (fun d kv => dict_insert d kv.1 kv.2) []

/-- Models `line_wo_metrics.split(":", 1)` followed by the `strip()`s of
lines 166-172: the `(node_type, detail)` pair. -/
def split_on_colon (s : String) : String × String :=
  match s.toList.findIdx? (· = ':') with
  | some i => (py_strip ⟨s.toList.take i⟩, py_strip ⟨s.toList.drop (i + 1)⟩)
  | none => (py_strip s, "")

/-- One emitted plan node of `_build_tree` (lines 174-182).  The
mutated `children` lists are represented by parent links: the children
of node `i` are exactly the later nodes whose `parent` is `some i`, in
emission order, and the roots are the nodes with `parent = none`. -/
structure BNode where
  type : String
  detail : String
  plan_type : Option String
  metrics : List (String × MVal)
  raw : String
  depth : Nat
  parent : Option Nat
deriving Repr, DecidableEq, Inhabited

/-- The loop state of `_build_tree`: the open-ancestor stack (indices
into `flat`, bottom first), the emitted nodes, and the running
`current_plan_type`. -/
structure BTState where
  stack : List Nat
  flat : List BNode
  cur : Option String
deriving Repr, DecidableEq

/-- One iteration of the `for col_left, plan_text in plan_lines` loop
of `_build_tree` (lines 141-199).  `none` models the uncaught
`IndexError` of `stack[-1]` on an empty stack (first data row at
positive depth) and an exception escaping `_parse_metric_value`. -/
def build_step (st : BTState) (row : String × String) : Option BTState :=
  let cur := if row.1 ≠ "" then some row.1 else st.cur
  let text := py_rstrip row.2
  if text = "" then some { st with cur := cur } else
  let depth := leading_spaces text / 2
  let node_line := py_lstrip_space text
  let parsed : Option (List (String × MVal) × String) :=
    match metrics_search node_line with
    | some (i, blob) =>
      ((keyval_scan blob.toList).mapM
        (fun kv => (parse_metric_value kv.2).toOption.map ((kv.1, ·)))).map
        (fun ms => (dict_of ms, py_rstrip ⟨node_line.toList.take i⟩))
    | none => some ([], node_line)
  match parsed with
  | none => none
  | some (metrics_raw, line_wo) =>
    let td := split_on_colon line_wo
    let idx := st.flat.length
    let node : Option Nat → BNode := fun par =>
      { type := td.1, detail := td.2, plan_type := cur
        metrics := normalize_metrics metrics_raw
        raw := node_line, depth := depth, parent := par }
    if depth = 0 then
      some { stack := [idx], flat := st.flat ++ [node none], cur := cur }
    else if st.stack.length < depth then
      match st.stack.getLast? with
      | none => none
      | some p =>
        some { stack := st.stack ++ [idx], flat := st.flat ++ [node (some p)],
               cur := cur }
    else
      let p := st.stack.getD (depth - 1) 0
      some { stack := st.stack.take depth ++ [idx],
             flat := st.flat ++ [node (some p)], cur := cur }

/-- Models `_build_tree` (lines 130-201) over the extracted plan rows;
`none` is an uncaught exception. -/
def build_tree (rows : List (String × String)) : Option BTState :=
  rows.foldlM build_step ⟨[], [], none⟩

/-- Models `_BAR_LINE_RE` (`^\+[-+]+\+$`) as a whole-line match. -/
def bar_line (s : String) : Bool :=
  let cs := s.toList
  decide (3 ≤ cs.length) && (cs.head? == some '+') && (cs.getLast? == some '+') &&
    (cs.drop 1).dropLast.all (fun c => c == '-' || c == '+')

/-- Case-insensitive literal match; returns the rest of the input. -/
def match_ci : List Char → List Char → Option (List Char)
  | [], cs => some cs
  | _ :: _, [] => none
  | l :: ls, c :: cs => if c.toLower = l then match_ci ls cs else none

/-- Models `_PLAN_HEADER_RE` (`\|\s*plan_type\s*\|\s*plan\s*\|`,
case-insensitive) anchored at the head of the input. -/
def header_at (cs : List Char) : Bool :=
  match cs with
  | '|' :: r1 =>
    match match_ci "plan_type".toList (r1.dropWhile Char.isWhitespace) with
    | some r2 =>
      match r2.dropWhile Char.isWhitespace with
      | '|' :: r3 =>
        match match_ci "plan".toList (r3.dropWhile Char.isWhitespace) with
        | some r4 =>
          match r4.dropWhile Char.isWhitespace with
          | '|' :: _ => true
          | _ => false
        | none => false
      | _ => false
    | none => false
  | _ => false

/-- Models `_PLAN_HEADER_RE.search(line)`. -/
def header_search (s : String) : Bool :=
  s.toList.tails.any header_at

/-- Models `_split_plan_columns` (lines 113-127): bar positions, the stripped
`plan_type` column, and the plan column between the second and the last
bar with a single leading space removed. -/
def split_plan_columns (line : String) : Option (String × String) :=
  if ¬ py_startswith line "|" then none else
  let cs := line.toList
  let bars := (List.range cs.length).filter (fun i => cs.getD i ' ' == '|')
  if bars.length < 3 then none else
  let b0 := bars.getD 0 0
  let b1 := bars.getD 1 0
  let blast := (bars.getLast?).getD 0
  let left := py_strip ⟨(cs.take b1).drop (b0 + 1)⟩
  let plan0 : List Char := (cs.take blast).drop (b1 + 1)
  let plan1 : List Char := (plan0.reverse.dropWhile (· = '\n')).reverse
  let plan2 : List Char := match plan1 with
    | ' ' :: r => r
    | r => r
  some (left, ⟨plan2⟩)

/-- The row-collection loop of `parse_datafusion_explain_text`
(lines 244-253): collect pipe rows until the closing border line. -/
def collect_rows : List String → List (String × String)
  | [] => []
  | l :: ls =>
    if bar_line l then []
    else
      match (if py_startswith l "|" then split_plan_columns l else none) with
      | some c => c :: collect_rows ls
      | none => collect_rows ls
termination_by structural ls => ls

/-- Plan-table location and row extraction of
`parse_datafusion_explain_text` (lines 229-253): find the header line,
skip to the next pipe line, collect rows until the border. -/
def parse_plan_rows (text : String) : List (String × String) :=
  let lines := py_splitlines text
  match lines.findIdx? header_search with
  | none => []
  | some i =>
    let after := lines.drop (i + 1)
    collect_rows (after.dropWhile (fun l => ¬ py_startswith l "|"))

/-- Models `parse_datafusion_explain_text` restricted to the plan fields
(`plan_roots` / `nodes_flat`) that the claims concern; the provenance
fields (`query_title`, `cli_version`, `elapsed_pings_s`) are scanned
from other lines and touch no claim.  `none` is an uncaught
exception. -/
def parse_explain_plan (text : String) : Option BTState :=
  build_tree (parse_plan_rows text)

/-- The indices of the root nodes (`roots` in `_build_tree`): the
emitted nodes carrying no parent link. -/
def df_roots (flat : List BNode) : List Nat :=
  (List.range flat.length).filter (fun i => (flat.getD i default).parent == none)

/-- The plan texts of the rows `_build_tree` does not skip: rstripped
and nonblank, in order. -/
def nonblank_texts (rows : List (String × String)) : List String :=
  rows.filterMap (fun r =>
    let t := py_rstrip r.2
    if t = "" then none else some t)

/-- The inferred depths (`leading_spaces // 2`) of the emitted rows. -/
def depth_list (rows : List (String × String)) : List Nat :=
  (nonblank_texts rows).map (fun t => leading_spaces t / 2)

/-- The most recently emitted node of a given depth, by flat index
(claim C4's notion of "the most recent node at depth d" in document
order). -/
def last_idx_of_depth (flat : List BNode) (d : Nat) : Option Nat :=
  ((List.range flat.length).filter
    (fun j => (flat.getD j default).depth = d)).getLast?

/-- The stack height the loop maintains between rows when no
indentation jump has occurred: one more than the last emitted depth. -/
def stack_bound (st : BTState) : Nat :=
  match st.flat.getLast? with
  | none => 0
  | some n => n.depth + 1

/-- No-jump condition on a depth sequence relative to an allowed bound:
each depth is at most the current bound (the first row at most 0, each
later row at most one more than its predecessor). -/
def ok_from : Nat → List Nat → Bool
  | _, [] => true
  | b, d :: rest => decide (d ≤ b) && ok_from (d + 1) rest

/-- A flat node index that reaches a root by following parent links. -/
inductive Rooted (flat : List BNode) : Nat → Prop where
  | root (i : Nat) (h : (flat.getD i default).parent = none) :
      Rooted flat i
  | step (i p : Nat) (h : (flat.getD i default).parent = some p)
      (hp : Rooted flat p) : Rooted flat i

/-- Every emitted node is a root or points at an earlier node. -/
def parents_lt (flat : List BNode) : Prop :=
  ∀ k, k < flat.length →
    (flat.getD k default).parent = none ∨
      ∃ p, (flat.getD k default).parent = some p ∧ p < k

/-- Claim C4's parent rule: every node of positive depth is a child of
the most recently emitted node one level up. -/
def node_parent_prop (flat : List BNode) : Prop :=
  ∀ k, k < flat.length → 0 < (flat.getD k default).depth →
    (flat.getD k default).parent =
      last_idx_of_depth (flat.take k) ((flat.getD k default).depth - 1)

/-- The stack invariant of the no-jump runs: the stack has exactly
`stack_bound` entries and entry `d` is the most recently emitted node
of depth `d`. -/
structure StackInv (st : BTState) : Prop where
  len_eq : st.stack.length = stack_bound st
  lasts : ∀ d, d < st.stack.length →
    last_idx_of_depth st.flat d = some (st.stack.getD d 0)

/-- Numeric (already-canonical) metric values: ints and floats. -/
def is_numeric_val : MVal → Bool
  | .int _ => true
  | .float _ => true
  | .dur _ _ => false
  | .str _ => false

/-- Rows with an indentation jump (depths `0, 3, 2`): the plan texts
carry 0, 6 and 4 leading spaces. -/
def c4_rows : List (String × String) :=
  [("P", "a"), ("", "      b"), ("", "    c")]

/-- The state `_build_tree` reaches on `c4_rows`: after the jump the
depth-2 node is parented to the depth-3 node at stack position 1. -/
def c4_st : BTState :=
  ⟨[0, 1, 2],
   [⟨"a", "", some "P", [], "a", 0, none⟩,
    ⟨"b", "", some "P", [], "b", 3, some 0⟩,
    ⟨"c", "", some "P", [], "c", 2, some 1⟩],
   some "P"⟩

/-- A jump-free table: depths `0, 1, 1, 2`. -/
def c4w_rows : List (String × String) :=
  [("P", "a"), ("", "  b"), ("", "  c"), ("", "    d")]

/-- The state `_build_tree` reaches on `c4w_rows`. -/
def c4w_st : BTState :=
  ⟨[0, 2, 3],
   [⟨"a", "", some "P", [], "a", 0, none⟩,
    ⟨"b", "", some "P", [], "b", 1, some 0⟩,
    ⟨"c", "", some "P", [], "c", 1, some 0⟩,
    ⟨"d", "", some "P", [], "d", 2, some 2⟩],
   some "P"⟩

/-- A two-row plan table: a root and one child. -/
def c9_rows : List (String × String) :=
  [("P", "a"), ("", "  b")]

/-- The state `_build_tree` reaches on `c9_rows`. -/
def c9_st : BTState :=
  ⟨[0, 1],
   [⟨"a", "", some "P", [], "a", 0, none⟩,
    ⟨"b", "", some "P", [], "b", 1, some 0⟩],
   some "P"⟩

end DataFusion

namespace Snowflake

/-- One record of the `Operations[0]` array consumed by
`_render_snowflake_tree_image`
(`src/snowflake/visualize_snowflake_output.py` lines 82-115): its id,
its operation name, and the optional `parentOperators` id list.  The
label-markup fields (`objects`, `expressions`, partition counts) are
presentation payload outside every claim and are omitted. -/
structure SFOp where
  id : Int
  operation : String
  parentOperators : Option (List Int)
deriving Repr, DecidableEq

/-- Models `_render_snowflake_tree_image` restricted to its graph
content: the guard of lines 72-73 (raising `ValueError` when the
`Operations` key is missing or its list is empty, modelled as
`.error`), the node set (one `dot.node` per operator id), and the edge
set of lines 112-115 (an edge per listed parent id that is present in
`op_map`). -/
def render_tree (operations : Option (List (List SFOp))) :
    Except String (List Int × List (Int × Int)) :=
  match operations with
  | none => .error "Operations key missing or empty in plan_json"
  | some [] => .error "Operations key missing or empty in plan_json"
  | some (ops :: _) =>
    let ids := ops.map (·.id)
    let edges := ops.flatMap (fun op =>
      (op.parentOperators.getD []).filterMap
        (fun p => if p ∈ ids then some (op.id, p) else none))
    .ok (ids, edges)

/-- A JSON value inside a Snowflake stats record: a number, a string,
or the nested time-breakdown dict. -/
inductive SVal where
  | num (q : ℚ)
  | str (s : String)
  | dict (d : List (String × ℚ))
deriving Repr, DecidableEq

/-- A stats record (`op_stat`) as an insertion-ordered dict. -/
abbrev SFStat := List (String × SVal)

/-- Python `d.get(k)` on a stats record. -/
def lookup_sval (st : SFStat) (k : String) : Option SVal :=
  (st.find? (·.1 == k)).map (·.2)

/-- Models `_get_total_query_seconds` (lines 154-165): the first of
`TOTAL_ELAPSED_TIME` / `total_elapsed_time` holding a number, divided
by 1000; `none` when the summary is absent or carries neither. -/
def get_total_query_seconds (summary : Option SFStat) : Option ℚ :=
  match summary with
  | none => none
  | some sm =>
    match lookup_sval sm "TOTAL_ELAPSED_TIME" with
    | some (.num q) => some (q / 1000)
    | _ =>
      match lookup_sval sm "total_elapsed_time" with
      | some (.num q) => some (q / 1000)
      | _ => none

/-- Substring containment (Python `needle in hay`). -/
def str_contains (hay needle : List Char) : Bool :=
  hay.tails.any (list_is_pre needle)

/-- Lower-cased string (`str(k).lower()`). -/
def lower_str (s : String) : String :=
  ⟨s.toList.map Char.toLower⟩

/-- The candidate pass of `_get_elapsed_seconds` (lines 130-136):
numeric fields whose lower-cased name mentions elapsed / duration /
time, in record order. -/
def elapsed_candidates (st : SFStat) : List (String × ℚ) :=
  st.filterMap (fun p =>
    match p.2 with
    | .num q =>
      let name := lower_str p.1
      if ["elapsed", "duration", "time"].any
          (fun t => str_contains name.toList t.toList)
      then some (name, q) else none
    | _ => none)

/-- The first unit-suffix loop of `_get_elapsed_seconds`
(lines 138-144): the first candidate with an ms / us / ns marker, with
the corresponding divisor. -/
def unit_scaled : List (String × ℚ) → Option ℚ
  | [] => none
  | (name, v) :: rest =>
    if py_endswith name "_ms" || str_contains name.toList "millis".toList ||
        py_endswith name "milliseconds" then some (v / 1000)
    else if py_endswith name "_us" || str_contains name.toList "micros".toList ||
        py_endswith name "microseconds" then some (v / 1000000)
    else if py_endswith name "_ns" || str_contains name.toList "nanos".toList ||
        py_endswith name "nanoseconds" then some (v / 1000000000)
    else unit_scaled rest

/-- Models `_get_elapsed_seconds` (lines 123-151): suffix-scaled first
match, else the first candidate (big values read as milliseconds — the
second `for` loop returns on its first iteration), else `none`. -/
def get_elapsed_seconds (op_stat : SFStat) : Option ℚ :=
  let cands := elapsed_candidates op_stat
  match unit_scaled cands with
  | some v => some v
  | none =>
    match cands with
    | (_, v) :: _ => some (if 10000 < v then v / 1000 else v)
    | [] => none

/-- The `EXECUTION_TIME_BREAKDOWN` dict of a stats record
(`dict(op_stat.get("EXECUTION_TIME_BREAKDOWN") or \x7b\x7d)`,
line 185). -/
def get_breakdown (op_stat : SFStat) : List (String × ℚ) :=
  match lookup_sval op_stat "EXECUTION_TIME_BREAKDOWN" with
  | some (.dict d) => d
  | _ => []

/-- Python `max(values)` over a nonempty list (0 for the empty list,
which the caller guards against). -/
def max_q : List ℚ → ℚ
  | [] => 0
  | x :: xs => xs.foldl max x

/-- The per-operator body of `_plot_snowflake_time_breakdown`
(lines 185-214): pop `overall_percentage`, classify the representation
(`is_fraction` by `mx <= 1.05 or sm <= 1.05`, `is_percent` by
`95 <= sm <= 105`), and convert each component to seconds against the
summary total (else the per-operator estimate, else 0); non-ratio
values are treated as times with the big-ms heuristic. -/
def op_breakdown_seconds (summary : Option SFStat) (op_stat : SFStat) :
    List (String × ℚ) :=
  let breakdown := (get_breakdown op_stat).filter
    (fun p => p.1 ≠ "overall_percentage")
  if breakdown.isEmpty then [] else
  let values := breakdown.map (·.2)
  let sm := values.sum
  let mx := max_q values
  let is_fraction : Prop := mx ≤ 1.05 ∨ sm ≤ 1.05
  let is_percent : Prop := 95 ≤ sm ∧ sm ≤ 105
  let base := match get_total_query_seconds summary with
    | some b => some b
    | none => get_elapsed_seconds op_stat
  breakdown.map (fun p =>
    (p.1,
     if is_fraction ∨ is_percent then
       match base with
       | some b => (if 95 ≤ sm ∧ sm ≤ 105 then p.2 / 100 else p.2) * b
       | none => 0
     else if 10000 < p.2 then p.2 / 1000 else p.2))

/-- The breakdown dict with `overall_percentage` popped (claim C5's
per-operator value list). -/
def filtered_breakdown (op_stat : SFStat) : List (String × ℚ) :=
  (get_breakdown op_stat).filter (fun p => p.1 ≠ "overall_percentage")

/-- The base used to scale ratio values: the summary total when
present, otherwise the per-operator elapsed-time estimate. -/
def ratio_base (summary : Option SFStat) (op_stat : SFStat) : Option ℚ :=
  match get_total_query_seconds summary with
  | some b => some b
  | none => get_elapsed_seconds op_stat

/-- Follows claim C5's words: a raw breakdown value is a fraction when
the max or the sum of the values is at most 1.05 and a percentage
(divided by 100) when the sum lies in [95, 105]; a ratio is scaled by
the base seconds, contributing exactly 0 when no base is available;
a non-ratio value is an absolute time (milliseconds when large). -/
def convert_component (mx sm : ℚ) (base : Option ℚ) (v : ℚ) : ℚ :=
  if (mx ≤ 1.05 ∨ sm ≤ 1.05) ∨ (95 ≤ sm ∧ sm ≤ 105) then
    match base with
    | some b => (if 95 ≤ sm ∧ sm ≤ 105 then v / 100 else v) * b
    | none => 0
  else if 10000 < v then v / 1000 else v

/-- A concrete fraction-form stats record for the C5 witness. -/
def c5_op_stat : SFStat :=
  [("OPERATOR_ID", .num 1),
   ("EXECUTION_TIME_BREAKDOWN",
    .dict [("overall_percentage", 1), ("processing", 3/5),
           ("synchronization", 2/5)])]

/-- A summary carrying `TOTAL_ELAPSED_TIME` of 2000 ms for the C5
witness. -/
def c5_summary : SFStat := [("TOTAL_ELAPSED_TIME", SVal.num 2000)]

/-- Operators for the C10 witness: operator 1 lists parents 0 (present)
and 5 (absent from the array). -/
def c10_ops : List SFOp :=
  [⟨1, "TableScan", some [0, 5]⟩, ⟨0, "Result", none⟩]
end Snowflake

namespace DuckDB

mutual
theorem walk_collect_totals (rl : ℚ) (n : Node) :
    (walk_collect rl n).2.1 =
      ((operator_nodes n).map
        (fun m => min (or_zero m.cpu_time) (or_zero m.operator_timing))).sum ∧
    (walk_collect rl n).2.2 =
      ((operator_nodes n).map (fun m => or_zero m.blocked_thread_time)).sum := by
  cases n with
  | mk lat onm oty ot ct bt oc ors tbr tbw cs =>
    have ih := walk_collect_totals_list rl cs
    by_cases h : (truthy_str onm || truthy_str oty) = true
    · simp [walk_collect, operator_nodes, h, ih.1, ih.2]
    · simp [walk_collect, operator_nodes, h, ih.1, ih.2]

theorem walk_collect_totals_list (rl : ℚ) (l : List Node) :
    (walk_collect_list rl l).2.1 =
      ((operator_nodes_list l).map
        (fun m => min (or_zero m.cpu_time) (or_zero m.operator_timing))).sum ∧
    (walk_collect_list rl l).2.2 =
      ((operator_nodes_list l).map (fun m => or_zero m.blocked_thread_time)).sum := by
  match l with
  | [] => simp [walk_collect_list, operator_nodes_list]
  | c :: cs =>
    have ih1 := walk_collect_totals rl c
    have ih2 := walk_collect_totals_list rl cs
    simp [walk_collect_list, operator_nodes_list, ih1.1, ih1.2, ih2.1, ih2.2]
end

theorem mem_insert_desc {a x : OpEntry} {l : List OpEntry} :
    a ∈ insert_desc x l ↔ a = x ∨ a ∈ l := by
  induction l with
  | nil => simp [insert_desc]
  | cons b bs ih =>
    simp only [insert_desc]
    split
    · simp
    · simp [ih]
      tauto

theorem mem_sort_foldl {a : OpEntry} (l acc : List OpEntry) :
    a ∈ l.foldl (fun acc x => insert_desc x acc) acc ↔ a ∈ acc ∨ a ∈ l := by
  induction l generalizing acc with
  | nil => simp
  | cons b bs ih =>
    simp [List.foldl_cons, ih, mem_insert_desc]
    tauto

theorem mem_sort_by_overall_desc {a : OpEntry} {l : List OpEntry} :
    a ∈ sort_by_overall_desc l ↔ a ∈ l := by
  simp [sort_by_overall_desc, mem_sort_foldl]

mutual
theorem walk_collect_pct_zero (rl : ℚ) (n : Node) (h : ¬ 0 < rl) :
    ∀ e ∈ (walk_collect rl n).1,
      e.overall_percentage = 0 ∧ e.processing_percentage = 0 ∧
      e.synchronization_percentage = 0 := by
  cases n with
  | mk lat onm oty ot ct bt oc ors tbr tbw cs =>
    have ih := walk_collect_pct_zero_list rl cs h
    by_cases hb : (truthy_str onm || truthy_str oty) = true
    · intro e he
      simp only [walk_collect, hb, if_pos] at he
      simp only [List.mem_cons] at he
      rcases he with rfl | he
      · simp [mk_entry, h]
      · exact ih e he
    · intro e he
      simp only [walk_collect, hb] at he
      exact ih e (by simpa using he)

theorem walk_collect_pct_zero_list (rl : ℚ) (l : List Node) (h : ¬ 0 < rl) :
    ∀ e ∈ (walk_collect_list rl l).1,
      e.overall_percentage = 0 ∧ e.processing_percentage = 0 ∧
      e.synchronization_percentage = 0 := by
  match l with
  | [] => simp [walk_collect_list]
  | c :: cs =>
    intro e he
    simp only [walk_collect_list, List.mem_append] at he
    rcases he with he | he
    · exact walk_collect_pct_zero rl c h e he
    · exact walk_collect_pct_zero_list rl cs h e he
end

/-- Claim C2: For every Parser B profile, the derived total processing
time is the sum over operator nodes of
`min(cpu_time, operator_timing)` and the derived total synchronization
time is the sum of `blocked_thread_time`; on the single-operator
scenario with `operator_timing = 2`, `cpu_time = 3`,
`blocked_thread_time = 0.5` and root latency `2`, the breakdown has
`processing = 2`, `synchronization = 0.5`,
`processing_percentage = 100` and `synchronization_percentage = 25`. -/
theorem C2_processing_min_cpu_walltime :
    (∀ p : Node,
      (get_execution_time_breakdown p).processing = spec_processing p ∧
      (get_execution_time_breakdown p).synchronization = spec_synchronization p) ∧
    (get_execution_time_breakdown single_op_profile).processing = 2 ∧
    (get_execution_time_breakdown single_op_profile).synchronization = 1/2 ∧
    (get_execution_time_breakdown single_op_profile).processing_percentage = 100 ∧
    (get_execution_time_breakdown single_op_profile).synchronization_percentage = 25 := by
  refine ⟨fun p => ?_, ?_, ?_, ?_, ?_⟩
  · have h := walk_collect_totals (root_latency p) p
    exact ⟨by simpa [get_execution_time_breakdown, spec_processing] using h.1,
           by simpa [get_execution_time_breakdown, spec_synchronization] using h.2⟩
  all_goals
    simp [single_op_profile, get_execution_time_breakdown, root_latency,
      find_latency, walk_collect, walk_collect_list, truthy_str, or_zero,
      mk_entry]
  all_goals norm_num

/-- Claim C3: When the discovered root wall-clock latency is absent or
`0`, Parser B's aggregate percentages, every per-operator percentage in
the `operators` list, and every percentage an `op_entry` tree node
would carry are all exactly `0` (the division by the root latency is
guarded by `root_latency > 0`, so no division happens). -/
theorem C3_zero_latency_all_percentages_zero (p : Node)
    (h : find_latency p = none ∨ find_latency p = some 0) :
    (get_execution_time_breakdown p).processing_percentage = 0 ∧
    (get_execution_time_breakdown p).synchronization_percentage = 0 ∧
    (∀ e ∈ (get_execution_time_breakdown p).operators,
      e.overall_percentage = 0 ∧ e.processing_percentage = 0 ∧
      e.synchronization_percentage = 0) ∧
    (∀ n : Node,
      (op_entry (root_latency p) n).overall_percentage = some 0 ∧
      (op_entry (root_latency p) n).processing_percentage = some 0 ∧
      (op_entry (root_latency p) n).synchronization_percentage = some 0) := by
  have hrl : root_latency p = 0 := by
    rcases h with h | h <;> simp [root_latency, h]
  have hneg : ¬ (0:ℚ) < root_latency p := by simp [hrl]
  refine ⟨?_, ?_, ?_, ?_⟩
  · simp [get_execution_time_breakdown, hneg]
  · simp [get_execution_time_breakdown, hneg]
  · intro e he
    simp only [get_execution_time_breakdown, mem_sort_by_overall_desc] at he
    exact walk_collect_pct_zero (root_latency p) p hneg e he
  · intro n
    simp [op_entry, hneg]

/-- Witness for C3 at a concrete profile whose `latency` field is `0`. -/
theorem C3_zero_latency_all_percentages_zero_witness :
    (find_latency zero_latency_profile = none ∨
      find_latency zero_latency_profile = some 0) ∧
    ((get_execution_time_breakdown zero_latency_profile).processing_percentage = 0 ∧
     (get_execution_time_breakdown zero_latency_profile).synchronization_percentage = 0 ∧
     (∀ e ∈ (get_execution_time_breakdown zero_latency_profile).operators,
       e.overall_percentage = 0 ∧ e.processing_percentage = 0 ∧
       e.synchronization_percentage = 0) ∧
     (∀ n : Node,
       (op_entry (root_latency zero_latency_profile) n).overall_percentage = some 0 ∧
       (op_entry (root_latency zero_latency_profile) n).processing_percentage = some 0 ∧
       (op_entry (root_latency zero_latency_profile) n).synchronization_percentage = some 0)) :=
  ⟨Or.inr (by simp [zero_latency_profile, find_latency]),
   C3_zero_latency_all_percentages_zero zero_latency_profile
     (Or.inr (by simp [zero_latency_profile, find_latency]))⟩

theorem tree_size_pos (t : OpTree) : 1 ≤ tree_size t := by
  cases t with
  | mk info cs => simp [tree_size]

mutual
theorem assign_ids_counter (t : OpTree) (p : Option Nat) (d c : Nat) :
    (assign_ids t p d c).2.2 = c + tree_size t := by
  cases t with
  | mk info cs =>
    have ih := assign_ids_list_counter cs c (d + 1) (c + 1)
    simp [assign_ids, ih, tree_size]
    omega

theorem assign_ids_list_counter (cs : List OpTree) (pid d c : Nat) :
    (assign_ids_list cs pid d c).2.2 = c + forest_size cs := by
  cases cs with
  | nil => simp [assign_ids_list, forest_size]
  | cons t ts =>
    have ih1 := assign_ids_counter t (some pid) d c
    have ih2 := assign_ids_list_counter ts pid d ((assign_ids t (some pid) d c).2.2)
    rw [ih1] at ih2
    simp [assign_ids_list, ih1, ih2, forest_size]
    omega
end

mutual
theorem assign_ids_nodes (t : OpTree) (p : Option Nat) (d c : Nat) :
    ((assign_ids t p d c).1.map FlatNode.id) = List.range' c (tree_size t) ∧
    ((assign_ids t p d c).1.map FlatNode.info) = preorder_infos t := by
  cases t with
  | mk info cs =>
    have ih := assign_ids_list_nodes cs c (d + 1) (c + 1)
    have hsz : tree_size (OpTree.mk info cs) = forest_size cs + 1 := by
      simp [tree_size]; omega
    constructor
    · rw [hsz, List.range'_succ]
      simp [assign_ids, ih.1]
    · simp [assign_ids, ih.2, preorder_infos]

theorem assign_ids_list_nodes (cs : List OpTree) (pid d c : Nat) :
    ((assign_ids_list cs pid d c).1.map FlatNode.id) = List.range' c (forest_size cs) ∧
    ((assign_ids_list cs pid d c).1.map FlatNode.info) = preorder_infos_list cs := by
  cases cs with
  | nil => simp [assign_ids_list, forest_size, preorder_infos_list]
  | cons t ts =>
    have ih1 := assign_ids_nodes t (some pid) d c
    have hc := assign_ids_counter t (some pid) d c
    have ih2 := assign_ids_list_nodes ts pid d ((assign_ids t (some pid) d c).2.2)
    rw [hc] at ih2
    constructor
    · simp [assign_ids_list, hc, ih1.1, ih2.1, forest_size, List.range'_append_1]
      omega
    · simp [assign_ids_list, hc, ih1.2, ih2.2, preorder_infos_list]
end

mutual
theorem assign_ids_edges (t : OpTree) (p : Option Nat) (d c : Nat) :
    ((assign_ids t p d c).2.1.map Edge.child).Perm
      (List.range' (c + 1) (tree_size t - 1)) := by
  cases t with
  | mk info cs =>
    have ih := assign_ids_list_edges cs c (d + 1) (c + 1)
    have hsz : tree_size (OpTree.mk info cs) - 1 = forest_size cs := by
      simp [tree_size]
    rw [hsz]
    simpa [assign_ids] using ih

theorem assign_ids_list_edges (cs : List OpTree) (pid d c : Nat) :
    ((assign_ids_list cs pid d c).2.1.map Edge.child).Perm
      (List.range' c (forest_size cs)) := by
  cases cs with
  | nil => simp [assign_ids_list, forest_size]
  | cons t ts =>
    have ih1 := assign_ids_edges t (some pid) d c
    have hc := assign_ids_counter t (some pid) d c
    have ih2 := assign_ids_list_edges ts pid d ((assign_ids t (some pid) d c).2.2)
    rw [hc] at ih2
    have h1 := tree_size_pos t
    have key : List.range' c (forest_size (t :: ts)) =
        (c :: List.range' (c + 1) (tree_size t - 1)) ++
          List.range' (c + tree_size t) (forest_size ts) := by
      have e1 : forest_size (t :: ts) = forest_size ts + tree_size t := by
        simp [forest_size]
        omega
      rw [e1, ← List.range'_append_1]
      congr 1
      conv_lhs => rw [show tree_size t = (tree_size t - 1) + 1 by omega]
      rw [List.range'_succ]
    have step1 :
        (((assign_ids t (some pid) d c).2.1.map Edge.child) ++ [c]).Perm
          (c :: List.range' (c + 1) (tree_size t - 1)) :=
      List.perm_append_comm.trans (ih1.cons c)
    have hall := step1.append ih2
    rw [key]
    simpa [assign_ids_list, hc] using hall
end

end DuckDB

namespace DataFusion

theorem rtl_preorder_list_append (a b : List VTree) :
    rtl_preorder_list (a ++ b) = rtl_preorder_list a ++ rtl_preorder_list b := by
  induction a with
  | nil => simp [rtl_preorder_list]
  | cons t ts ih => simp [rtl_preorder_list, ih]

theorem assign_node_ids_loop_spec (l : List VTree) (ids : List (Nat × Nat)) (c : Nat) :
    assign_node_ids_loop l ids c =
      ids ++ enum_from c (dedup_first (ids.map Prod.fst) (rtl_preorder_list l)) := by
  match l with
  | [] => simp [assign_node_ids_loop, rtl_preorder_list, dedup_first, enum_from]
  | .mk tag cs :: rest =>
    have hlist : rtl_preorder_list (VTree.mk tag cs :: rest) =
        tag :: (rtl_preorder_list cs.reverse ++ rtl_preorder_list rest) := by
      simp [rtl_preorder_list, rtl_preorder]
    by_cases h : ((ids.map Prod.fst).contains tag : Bool) = true
    · have ih := assign_node_ids_loop_spec (cs.reverse ++ rest) ids c
      rw [hlist]
      simp only [assign_node_ids_loop, h, if_pos]
      rw [ih, rtl_preorder_list_append]
      simp only [dedup_first]
      rw [if_pos h]
    · have ih := assign_node_ids_loop_spec (cs.reverse ++ rest) (ids ++ [(tag, c)]) (c + 1)
      rw [hlist]
      simp only [assign_node_ids_loop, h, if_neg]
      rw [ih, rtl_preorder_list_append]
      simp only [dedup_first]
      rw [if_neg h]
      simp [enum_from, List.map_append, List.append_assoc]
termination_by vforest_size l
decreasing_by
  all_goals simp [vforest_size, vforest_size_append, vforest_size_reverse, vtree_size]

end DataFusion

/-- Claim C1, amended: Both tree assemblers assign flat-node ids as
consecutive integers starting at 0 in depth-first pre-order, visiting a
node before its children, and assign no node an id twice: the DuckDB
`assign_ids` visits children left-to-right in their stored order (the
flat ids are `0..N-1` in left-to-right pre-order), while the DataFusion
`_assign_node_ids` pops its LIFO stack so that children are visited
right-to-left, and de-duplicates by node identity, so its ids enumerate
the first visits of a right-to-left pre-order. -/
theorem C1_tree_assembler_preorder_ids :
    (∀ t : DuckDB.OpTree,
      ((DuckDB.assign_ids t none 0 0).1.map DuckDB.FlatNode.id) =
        List.range' 0 (DuckDB.tree_size t) ∧
      ((DuckDB.assign_ids t none 0 0).1.map DuckDB.FlatNode.info) =
        DuckDB.preorder_infos t) ∧
    (∀ roots : List DataFusion.VTree,
      DataFusion.assign_node_ids roots =
        DataFusion.enum_from 0
          (DataFusion.dedup_first [] (DataFusion.rtl_preorder_list roots))) :=
  ⟨fun t => DuckDB.assign_ids_nodes t none 0 0,
   fun roots => by
     have h := DataFusion.assign_node_ids_loop_spec roots [] 0
     simpa [DataFusion.assign_node_ids] using h⟩

/-- Claim C1, counterexample: On a root with two children stored as
tags 11 then 12, `_assign_node_ids` assigns id 1 to the *right* child
(tag 12) and id 2 to the left child (tag 11); the left-to-right
pre-order enumeration demanded by the claim assigns them the other way
round, so the claim's ordering is violated by the code. -/
theorem C1_counterexample :
    DataFusion.assign_node_ids [DataFusion.c1_sample] = [(10, 0), (12, 1), (11, 2)] ∧
    DataFusion.enum_from 0
      (DataFusion.dedup_first []
        (DataFusion.ltr_preorder_list [DataFusion.c1_sample])) =
      [(10, 0), (11, 1), (12, 2)] ∧
    DataFusion.assign_node_ids [DataFusion.c1_sample] ≠
      DataFusion.enum_from 0
        (DataFusion.dedup_first []
          (DataFusion.ltr_preorder_list [DataFusion.c1_sample])) := by
  have h1 : DataFusion.assign_node_ids [DataFusion.c1_sample] = [(10, 0), (12, 1), (11, 2)] := by
    simp [DataFusion.assign_node_ids, DataFusion.assign_node_ids_loop,
      DataFusion.c1_sample, DataFusion.dedup_first, DataFusion.enum_from]
  have h2 : DataFusion.enum_from 0
      (DataFusion.dedup_first []
        (DataFusion.ltr_preorder_list [DataFusion.c1_sample])) =
      [(10, 0), (11, 1), (12, 2)] := by
    simp [DataFusion.ltr_preorder_list, DataFusion.ltr_preorder,
      DataFusion.c1_sample, DataFusion.dedup_first, DataFusion.enum_from]
  exact ⟨h1, h2, by rw [h1, h2]; decide⟩

namespace DataFusion

theorem to_bytes_error_iff_infinite (t : String) (e : String)
    (h : to_bytes t = .error e) :
    e = "OverflowError" ∧ py_endswith (py_strip t) " B" = true ∧
      (py_float (py_strip (py_drop_right (py_strip t) 2)) = some PyFloat.inf ∨
       py_float (py_strip (py_drop_right (py_strip t) 2)) = some PyFloat.ninf) := by
  unfold to_bytes at h
  split at h
  case isTrue hb =>
    split at h
    case h_1 => exact Except.noConfusion h
    case h_2 f hf =>
      split at h
      case h_1 => exact Except.noConfusion h
      case h_2 e2 he2 =>
        split at h
        case isTrue => exact Except.noConfusion h
        case isFalse hne =>
          injection h with h3
          cases f with
          | fin q => exact absurd he2 (by simp [py_int_of_float])
          | inf =>
            have he3 : e2 = "OverflowError" := by
              simpa [py_int_of_float] using he2.symm
            exact ⟨by rw [← h3, he3], hb, Or.inl hf⟩
          | ninf =>
            have he3 : e2 = "OverflowError" := by
              simpa [py_int_of_float] using he2.symm
            exact ⟨by rw [← h3, he3], hb, Or.inr hf⟩
          | nan =>
            have he3 : e2 = "ValueError" := by
              simpa [py_int_of_float] using he2.symm
            exact absurd he3 hne
  case isFalse hb => exact Except.noConfusion h

theorem metric_fallback_shape (raw : String) :
    (∃ n, metric_fallback raw = .int n) ∨
      (∃ x, metric_fallback raw = .float x) ∨ metric_fallback raw = .str raw := by
  simp only [metric_fallback]
  rcases hi : (if re_full_int raw then py_int raw else none) with _ | n
  · rcases hf : (if re_full_float raw then py_float raw else none) with _ | x
    · exact Or.inr (Or.inr rfl)
    · exact Or.inr (Or.inl ⟨x, rfl⟩)
  · exact Or.inl ⟨n, rfl⟩

/-- Claim C7, amended: For every string given to `_parse_metric_value`,
the result is a canonical numeric value (an integer byte/count value, a
plain number, or a seconds duration carrying the *stripped* input as
its raw string) or the *whitespace-stripped* input passed through; the
only input on which the normalizer raises is a `" B"`-suffixed numeral
whose float value is infinite, where `int(float(...))` raises an
uncaught `OverflowError`. -/
theorem C7_metric_value_shape (s : String) :
    ((∃ e, parse_metric_value s = .error e) ∨
     (∃ n, parse_metric_value s = .ok (.int n)) ∨
     (∃ x, parse_metric_value s = .ok (.float x)) ∨
     (∃ x, parse_metric_value s = .ok (.dur x (py_strip s))) ∨
     parse_metric_value s = .ok (.str (py_strip s))) ∧
    (∀ t e, to_bytes t = .error e →
      e = "OverflowError" ∧ py_endswith (py_strip t) " B" = true ∧
        (py_float (py_strip (py_drop_right (py_strip t) 2)) = some PyFloat.inf ∨
         py_float (py_strip (py_drop_right (py_strip t) 2)) = some PyFloat.ninf)) ∧
    (∀ e, parse_metric_value s = .error e → to_bytes (py_strip s) = .error e) := by
  refine ⟨?_, fun t e h => to_bytes_error_iff_infinite t e h, ?_⟩
  · simp only [parse_metric_value]
    rcases hb : to_bytes (py_strip s) with e | ob
    · exact Or.inl ⟨e, rfl⟩
    · cases ob with
      | some b => exact Or.inr (Or.inl ⟨b, rfl⟩)
      | none =>
        rcases hs : to_seconds (py_strip s) with _ | x
        · rcases metric_fallback_shape (py_strip s) with ⟨n, hn⟩ | ⟨x, hx⟩ | hstr
          · exact Or.inr (Or.inl ⟨n, by rw [hn]⟩)
          · exact Or.inr (Or.inr (Or.inl ⟨x, by rw [hx]⟩))
          · exact Or.inr (Or.inr (Or.inr (Or.inr (by rw [hstr]))))
        · by_cases hsuf : py_endswith_any (py_strip s) ["s", "ms", "µs", "us", "ns"] = true
          · simp only [hsuf, if_pos]
            exact Or.inr (Or.inr (Or.inr (Or.inl ⟨x, rfl⟩)))
          · simp only [hsuf]
            rcases metric_fallback_shape (py_strip s) with ⟨n, hn⟩ | ⟨x', hx⟩ | hstr
            · exact Or.inr (Or.inl ⟨n, by rw [hn]; simp⟩)
            · exact Or.inr (Or.inr (Or.inl ⟨x', by rw [hx]; simp⟩))
            · exact Or.inr (Or.inr (Or.inr (Or.inr (by rw [hstr]; simp))))
  · intro e h
    simp only [parse_metric_value] at h
    split at h
    next e' heq =>
      injection h with h2
      rw [← h2]
      exact heq
    next b heq => exact Except.noConfusion h
    next heq =>
      split at h
      next x hx =>
        split at h
        · exact Except.noConfusion h
        · exact Except.noConfusion h
      next hx => exact Except.noConfusion h

/-- Claim C7, counterexample: On the input `"inf B"` the normalizer
raises an uncaught `OverflowError` rather than never raising; and on
the input `" x "` it returns the *stripped* string `"x"`, not the
original string unchanged. -/
theorem C7_counterexample :
    parse_metric_value "inf B" = .error "OverflowError" ∧
    parse_metric_value " x " = .ok (.str "x") ∧ "x" ≠ " x " := by
  refine ⟨?_, ?_, by decide⟩
  · simp [parse_metric_value, py_strip, to_bytes, py_endswith, py_drop_right,
      py_float, ci_is, py_int_of_float, list_is_suf, list_is_pre]
  · simp [parse_metric_value, py_strip, to_bytes, py_endswith, py_int,
      parse_digits, to_seconds, py_replace, replace_list, py_endswith_any,
      py_drop_right, py_float, ci_is, py_float_body, metric_fallback,
      re_full_int, re_full_float, list_is_suf, list_is_pre]

/-- Witness for the error characterization of C7 at the concrete
input `"inf B"`. -/
theorem C7_metric_value_shape_witness :
    to_bytes "inf B" = .error "OverflowError" ∧
    ("OverflowError" = "OverflowError" ∧
      py_endswith (py_strip "inf B") " B" = true ∧
      (py_float (py_strip (py_drop_right (py_strip "inf B") 2)) = some PyFloat.inf ∨
       py_float (py_strip (py_drop_right (py_strip "inf B") 2)) = some PyFloat.ninf)) := by
  have hb : to_bytes "inf B" = .error "OverflowError" := by
    simp [to_bytes, py_strip, py_endswith, py_drop_right, py_float, ci_is,
      py_int_of_float, list_is_suf, list_is_pre]
  exact ⟨hb, (C7_metric_value_shape "inf B").2.1 "inf B" "OverflowError" hb⟩

/-- Claim C8: The normalizer is idempotent: a metrics dict whose values
are already numeric (canonical seconds / bytes) is returned unchanged,
and re-normalizing any normalized dict changes nothing (the output of
`_normalize_metrics` never contains a duration dict). -/
theorem C8_normalize_idempotent :
    (∀ d : List (String × MVal),
      (∀ kv ∈ d, is_numeric_val kv.2 = true) → normalize_metrics d = d) ∧
    (∀ d : List (String × MVal),
      normalize_metrics (normalize_metrics d) = normalize_metrics d) := by
  constructor
  · intro d hd
    induction d with
    | nil => rfl
    | cons kv rest ih =>
      have h1 := hd kv (by simp)
      have h2 : ∀ kv ∈ rest, is_numeric_val kv.2 = true :=
        fun x hx => hd x (by simp [hx])
      obtain ⟨k, v⟩ := kv
      cases v <;> simp [is_numeric_val] at h1 <;>
        simp [normalize_metrics, ih h2]
  · intro d
    induction d with
    | nil => rfl
    | cons kv rest ih =>
      obtain ⟨k, v⟩ := kv
      cases v <;> simp [normalize_metrics, ih]

/-- Witness for C8 at a concrete already-numeric metrics dict. -/
theorem C8_normalize_idempotent_witness :
    (∀ kv ∈ [("output_rows", MVal.int 42),
             ("elapsed_compute_s", MVal.float (.fin 1))],
        is_numeric_val kv.2 = true) ∧
    normalize_metrics [("output_rows", MVal.int 42),
                       ("elapsed_compute_s", MVal.float (.fin 1))] =
      [("output_rows", MVal.int 42),
       ("elapsed_compute_s", MVal.float (.fin 1))] :=
  ⟨by decide,
   C8_normalize_idempotent.1 _ (by decide)⟩

end DataFusion


namespace Snowflake

/-- Claim C5: Parser C classifies each operator's time-breakdown values
from the raw numbers — fractions when their max or sum is at most
1.05, percentages (divided by 100) when their sum lies in [95, 105] —
and converts ratio values to seconds against `TOTAL_ELAPSED_TIME`
milliseconds divided by 1000 when the summary carries it, otherwise
against the per-operator elapsed-time estimate; with neither base a
component contributes exactly 0, and no error is raised (the function
is total). -/
theorem C5_breakdown_classification (summary : Option SFStat)
    (op_stat : SFStat) (hb : filtered_breakdown op_stat ≠ []) :
    (∀ (sm' : SFStat) (q : ℚ),
      lookup_sval sm' "TOTAL_ELAPSED_TIME" = some (.num q) →
        get_total_query_seconds (some sm') = some (q / 1000)) ∧
    op_breakdown_seconds summary op_stat =
      (filtered_breakdown op_stat).map (fun p =>
        (p.1,
         convert_component
           (max_q ((filtered_breakdown op_stat).map Prod.snd))
           (((filtered_breakdown op_stat).map Prod.snd).sum)
           (ratio_base summary op_stat) p.2)) := by
  constructor
  · intro sm' q hq
    simp [get_total_query_seconds, hq]
  · simp only [op_breakdown_seconds, filtered_breakdown, convert_component,
      ratio_base] at *
    rw [if_neg (by simpa [List.isEmpty_iff] using hb)]

/-- Witness for C5 at a concrete fraction-form breakdown with a
2-second summary total. -/
theorem C5_breakdown_classification_witness :
    filtered_breakdown c5_op_stat ≠ [] ∧
    ((∀ (sm' : SFStat) (q : ℚ),
       lookup_sval sm' "TOTAL_ELAPSED_TIME" = some (.num q) →
         get_total_query_seconds (some sm') = some (q / 1000)) ∧
     op_breakdown_seconds (some c5_summary) c5_op_stat =
       (filtered_breakdown c5_op_stat).map (fun p =>
         (p.1,
          convert_component
            (max_q ((filtered_breakdown c5_op_stat).map Prod.snd))
            (((filtered_breakdown c5_op_stat).map Prod.snd).sum)
            (ratio_base (some c5_summary) c5_op_stat) p.2))) :=
  ⟨by simp [filtered_breakdown, get_breakdown, lookup_sval, c5_op_stat],
   C5_breakdown_classification (some c5_summary) c5_op_stat
     (by simp [filtered_breakdown, get_breakdown, lookup_sval, c5_op_stat])⟩

/-- Claim C10: Parser C's tree materialization emits an edge from an
operator to a listed parent id exactly when that id occurs in the node
map built from the `Operations` array; a parent reference to an absent
id is silently dropped (the call still succeeds) and no emitted edge
dangles on either endpoint. -/
theorem C10_parent_edges_filtered (ops : List SFOp) (rest : List (List SFOp)) :
    ∃ edges, render_tree (some (ops :: rest)) = .ok (ops.map SFOp.id, edges) ∧
      (∀ op ∈ ops, ∀ p ∈ op.parentOperators.getD [],
        ((op.id, p) ∈ edges ↔ p ∈ ops.map SFOp.id)) ∧
      (∀ e ∈ edges, e.1 ∈ ops.map SFOp.id ∧ e.2 ∈ ops.map SFOp.id) := by
  refine ⟨_, rfl, ?_, ?_⟩
  · intro op hop p hp
    constructor
    · intro he
      simp only [List.mem_flatMap, List.mem_filterMap] at he
      obtain ⟨op', hop', p', hp', hpe⟩ := he
      split at hpe
      next hc =>
        injection hpe with h2
        rw [Prod.mk.injEq] at h2
        rw [← h2.2]
        simpa using hc
      next hc => cases hpe
    · intro hid
      simp only [List.mem_flatMap]
      refine ⟨op, hop, ?_⟩
      simp only [List.mem_filterMap]
      refine ⟨p, hp, ?_⟩
      rw [if_pos (by simpa using hid)]
  · intro e he
    simp only [List.mem_flatMap, List.mem_filterMap] at he
    obtain ⟨op', hop', p', hp', hpe⟩ := he
    split at hpe
    next hc =>
      injection hpe with h2
      rw [Prod.mk.injEq] at h2
      constructor
      · rw [← h2.1]
        exact List.mem_map_of_mem _ hop'
      · rw [← h2.2]
        simpa using hc
    next hc => cases hpe

/-- Witness for C10: the dangling parent reference 5 yields no edge and
raises nothing, the present parent 0 yields the edge. -/
theorem C10_parent_edges_filtered_witness :
    c10_ops.get? 0 = some ⟨1, "TableScan", some [0, 5]⟩ ∧
    (∃ edges, render_tree (some [c10_ops]) = .ok (c10_ops.map SFOp.id, edges) ∧
      (∀ op ∈ c10_ops, ∀ p ∈ op.parentOperators.getD [],
        ((op.id, p) ∈ edges ↔ p ∈ c10_ops.map SFOp.id)) ∧
      (∀ e ∈ edges, e.1 ∈ c10_ops.map SFOp.id ∧ e.2 ∈ c10_ops.map SFOp.id)) :=
  ⟨rfl, C10_parent_edges_filtered c10_ops []⟩

end Snowflake

/-- Claim C6, amended: On inputs lacking the expected structure the two
components behave differently: Parser A with no plan-table header row
returns an explicit empty plan (empty root list and empty flat list)
without raising, but Parser C's tree renderer *raises* a `ValueError`
when the `Operations` key is missing or empty (its callers catch the
exception per plan, so a batch still continues); with a non-empty
`Operations` list it returns normally. -/
theorem C6_missing_structure (text : String)
    (hA : ∀ l ∈ py_splitlines text, DataFusion.header_search l = false) :
    (∃ st, DataFusion.parse_explain_plan text = some st ∧ st.flat = [] ∧
      DataFusion.df_roots st.flat = []) ∧
    (∃ e, Snowflake.render_tree none = .error e) ∧
    (∃ e, Snowflake.render_tree (some []) = .error e) ∧
    (∀ ops rest, ∃ out, Snowflake.render_tree (some (ops :: rest)) = .ok out) := by
  refine ⟨?_, ⟨_, rfl⟩, ⟨_, rfl⟩, fun ops rest => ⟨_, rfl⟩⟩
  have hnone : (py_splitlines text).findIdx? DataFusion.header_search = none := by
    rw [List.findIdx?_eq_none_iff]
    exact hA
  refine ⟨⟨[], [], none⟩, ?_, rfl, rfl⟩
  simp [DataFusion.parse_explain_plan, DataFusion.parse_plan_rows, hnone,
    DataFusion.build_tree]

/-- Claim C6, counterexample: A plan JSON with no `Operations` key (and
one with an empty `Operations` list) makes the Snowflake renderer raise
a `ValueError` instead of returning an empty-plan signal: the claim's
"does not throw" fails for Parser C. -/
theorem C6_counterexample :
    Snowflake.render_tree none =
      .error "Operations key missing or empty in plan_json" ∧
    Snowflake.render_tree (some []) =
      .error "Operations key missing or empty in plan_json" ∧
    (∀ out, Snowflake.render_tree none ≠ .ok out) :=
  ⟨rfl, rfl, fun _ h => Except.noConfusion h⟩

/-- Witness for C6 on a concrete two-line text containing no plan-table
header. -/
theorem C6_missing_structure_witness :
    (∀ l ∈ py_splitlines "hello\nworld", DataFusion.header_search l = false) ∧
    ((∃ st, DataFusion.parse_explain_plan "hello\nworld" = some st ∧
        st.flat = [] ∧ DataFusion.df_roots st.flat = []) ∧
     (∃ e, Snowflake.render_tree none = .error e) ∧
     (∃ e, Snowflake.render_tree (some []) = .error e) ∧
     (∀ ops rest, ∃ out, Snowflake.render_tree (some (ops :: rest)) = .ok out)) := by
  have hsplit : py_splitlines "hello\nworld" = ["hello", "world"] := by
    simp [py_splitlines, split_lines_aux]
  have hall : ∀ l ∈ py_splitlines "hello\nworld",
      DataFusion.header_search l = false := by
    rw [hsplit]
    decide
  exact ⟨hall, C6_missing_structure "hello\nworld" hall⟩


namespace DataFusion

theorem build_step_some (st : BTState) (row : String × String) (st' : BTState)
    (h : build_step st row = some st') :
    (py_rstrip row.2 = "" ∧ st'.stack = st.stack ∧ st'.flat = st.flat) ∨
    (∃ nd : BNode, py_rstrip row.2 ≠ "" ∧
      nd.depth = leading_spaces (py_rstrip row.2) / 2 ∧
      st'.flat = st.flat ++ [nd] ∧
      ((nd.depth = 0 ∧ nd.parent = none ∧ st'.stack = [st.flat.length]) ∨
       (0 < nd.depth ∧ st.stack.length < nd.depth ∧
         (∃ p, st.stack.getLast? = some p ∧ nd.parent = some p) ∧
         st'.stack = st.stack ++ [st.flat.length]) ∨
       (0 < nd.depth ∧ nd.depth ≤ st.stack.length ∧
         nd.parent = some (st.stack.getD (nd.depth - 1) 0) ∧
         st'.stack = st.stack.take nd.depth ++ [st.flat.length]))) := by
  simp only [build_step] at h
  split at h
  next hblank0 =>
    left
    cases h.symm
    exact ⟨hblank0, rfl, rfl⟩
  next hblank =>
    right
    split at h
    next heq => exact Option.noConfusion h
    next m lw heq =>
      split at h
      next hd0 =>
        cases h.symm
        exact ⟨_, hblank, rfl, rfl, Or.inl ⟨hd0, rfl, rfl⟩⟩
      next hd0 =>
        split at h
        next hlt =>
          split at h
          next hnone => exact Option.noConfusion h
          next p hp =>
            cases h.symm
            exact ⟨_, hblank, rfl, rfl,
              Or.inr (Or.inl ⟨Nat.pos_of_ne_zero hd0, hlt, ⟨p, hp, rfl⟩, rfl⟩)⟩
        next hnlt =>
          cases h.symm
          exact ⟨_, hblank, rfl, rfl,
            Or.inr (Or.inr ⟨Nat.pos_of_ne_zero hd0, Nat.le_of_not_lt hnlt,
              rfl, rfl⟩)⟩

theorem last_idx_of_depth_append (flat : List BNode) (n : BNode) (d : Nat) :
    last_idx_of_depth (flat ++ [n]) d =
      if n.depth = d then some flat.length else last_idx_of_depth flat d := by
  unfold last_idx_of_depth
  have h1 : (flat ++ [n]).length = flat.length + 1 := by simp
  rw [h1, List.range_succ flat.length, List.filter_append]
  have h2 : ∀ j ∈ List.range flat.length,
      (decide (((flat ++ [n]).getD j default).depth = d)) =
        (decide ((flat.getD j default).depth = d)) := by
    intro j hj
    rw [List.getD_append flat [n] default j (List.mem_range.mp hj)]
  rw [List.filter_congr h2]
  have h3 : ((flat ++ [n]).getD flat.length default) = n := by
    rw [List.getD_append_right flat [n] default flat.length (le_refl _)]
    simp
  by_cases hd : n.depth = d
  · rw [if_pos hd]
    have h4 : List.filter (fun j => decide (((flat ++ [n]).getD j default).depth = d))
        [flat.length] = [flat.length] := by
      simp [h3, hd]
    rw [h4, List.getLast?_concat]
  · rw [if_neg hd]
    have h4 : List.filter (fun j => decide (((flat ++ [n]).getD j default).depth = d))
        [flat.length] = [] := by
      simp [h3, hd]
    rw [h4, List.append_nil]

theorem build_step_parents (st st' : BTState) (row : String × String)
    (h : build_step st row = some st')
    (hlt : ∀ x ∈ st.stack, x < st.flat.length)
    (hpl : parents_lt st.flat) :
    (∀ x ∈ st'.stack, x < st'.flat.length) ∧ parents_lt st'.flat := by
  rcases build_step_some st row st' h with ⟨_, hs, hf⟩ | ⟨nd, _, _, hf, hc⟩
  · rw [hs, hf]; exact ⟨hlt, hpl⟩
  · have hflen : st'.flat.length = st.flat.length + 1 := by rw [hf]; simp
    have hold : ∀ k, k < st.flat.length →
        st'.flat.getD k default = st.flat.getD k default := by
      intro k hk
      rw [hf, List.getD_append st.flat [nd] default k hk]
    have hnd : st'.flat.getD st.flat.length default = nd := by
      rw [hf, List.getD_append_right st.flat [nd] default st.flat.length (le_refl _)]
      simp
    have hparent : nd.parent = none ∨
        ∃ p, nd.parent = some p ∧ p < st.flat.length := by
      rcases hc with ⟨_, hp, _⟩ | ⟨_, _, ⟨p, hgl, hp⟩, _⟩ | ⟨hdpos, hdle, hp, _⟩
      · exact Or.inl hp
      · exact Or.inr ⟨p, hp, hlt p (List.mem_of_mem_getLast? hgl)⟩
      · refine Or.inr ⟨st.stack.getD (nd.depth - 1) 0, hp, ?_⟩
        have hidx : nd.depth - 1 < st.stack.length := by omega
        rw [List.getD_eq_getElem _ 0 hidx]
        exact hlt _ (List.getElem_mem hidx)
    constructor
    · intro x hx
      rcases hc with ⟨_, _, hs⟩ | ⟨_, _, _, hs⟩ | ⟨_, _, _, hs⟩
      · rw [hs] at hx
        simp at hx
        omega
      · rw [hs] at hx
        rcases List.mem_append.mp hx with hx1 | hx2
        · have := hlt x hx1; omega
        · simp at hx2; omega
      · rw [hs] at hx
        rcases List.mem_append.mp hx with hx1 | hx2
        · have := hlt x (List.mem_of_mem_take hx1); omega
        · simp at hx2; omega
    · intro k hk
      rw [hflen] at hk
      by_cases hkl : k < st.flat.length
      · rw [hold k hkl]
        rcases hpl k hkl with h1 | ⟨p, hp1, hp2⟩
        · exact Or.inl h1
        · exact Or.inr ⟨p, hp1, hp2⟩
      · have hke : k = st.flat.length := by omega
        rw [hke, hnd]
        rcases hparent with h1 | ⟨p, hp1, hp2⟩
        · exact Or.inl h1
        · exact Or.inr ⟨p, hp1, by omega⟩

theorem build_tree_parents (rows : List (String × String)) :
    ∀ st st', rows.foldlM build_step st = some st' →
      (∀ x ∈ st.stack, x < st.flat.length) → parents_lt st.flat →
      (∀ x ∈ st'.stack, x < st'.flat.length) ∧ parents_lt st'.flat := by
  induction rows with
  | nil =>
    intro st st' h hlt hpl
    simp only [List.foldlM_nil] at h
    injection h with h2
    subst h2
    exact ⟨hlt, hpl⟩
  | cons r rs ih =>
    intro st st' h hlt hpl
    rw [List.foldlM_cons] at h
    cases hstep : build_step st r with
    | none => rw [hstep] at h; simp at h
    | some st1 =>
      rw [hstep] at h
      have h' : rs.foldlM build_step st1 = some st' := h
      have hs := build_step_parents st st1 r hstep hlt hpl
      exact ih st1 st' h' hs.1 hs.2

theorem rooted_of_parents_lt (flat : List BNode) (hpl : parents_lt flat) :
    ∀ i, i < flat.length → Rooted flat i := by
  intro i
  induction i using Nat.strong_induction_on with
  | _ i ih =>
    intro hi
    rcases hpl i hi with h1 | ⟨p, hp1, hp2⟩
    · exact Rooted.root i h1
    · exact Rooted.step i p hp1 (ih p hp2 (lt_trans hp2 hi))

theorem depth_list_cons (r : String × String) (rs : List (String × String)) :
    depth_list (r :: rs) =
      (if py_rstrip r.2 = "" then [] else
        [leading_spaces (py_rstrip r.2) / 2]) ++ depth_list rs := by
  by_cases hb : py_rstrip r.2 = "" <;>
    simp [depth_list, nonblank_texts, hb]

theorem build_tree_depths (rows : List (String × String)) :
    ∀ st st', rows.foldlM build_step st = some st' →
      st'.flat.map BNode.depth = st.flat.map BNode.depth ++ depth_list rows := by
  induction rows with
  | nil =>
    intro st st' h
    simp only [List.foldlM_nil] at h
    injection h with h2
    subst h2
    simp [depth_list, nonblank_texts]
  | cons r rs ih =>
    intro st st' h
    rw [List.foldlM_cons] at h
    cases hstep : build_step st r with
    | none => rw [hstep] at h; simp at h
    | some st1 =>
      rw [hstep] at h
      have h' : rs.foldlM build_step st1 = some st' := h
      have ht := ih st1 st' h'
      rw [depth_list_cons]
      rcases build_step_some st r st1 hstep with ⟨hb, _, hf⟩ | ⟨nd, hb, hd, hf, _⟩
      · rw [ht, hf, if_pos hb, List.nil_append]
      · rw [ht, hf, if_neg hb]
        simp [hd]

theorem build_tree_nojump (rows : List (String × String)) :
    ∀ st st', rows.foldlM build_step st = some st' →
      StackInv st → node_parent_prop st.flat →
      ok_from (stack_bound st) (depth_list rows) = true →
      StackInv st' ∧ node_parent_prop st'.flat := by
  induction rows with
  | nil =>
    intro st st' h hinv hnp _
    simp only [List.foldlM_nil] at h
    injection h with h2
    subst h2
    exact ⟨hinv, hnp⟩
  | cons r rs ih =>
    intro st st' h hinv hnp hok
    rw [List.foldlM_cons] at h
    cases hstep : build_step st r with
    | none => rw [hstep] at h; simp at h
    | some st1 =>
      rw [hstep] at h
      have h' : rs.foldlM build_step st1 = some st' := h
      rcases build_step_some st r st1 hstep with ⟨hb, hs, hf⟩ | ⟨nd, hb, hd, hf, hc⟩
      · have hsb : stack_bound st1 = stack_bound st := by
          simp [stack_bound, hf]
        have hinv1 : StackInv st1 := by
          constructor
          · rw [hs, hsb]; exact hinv.len_eq
          · intro e he
            rw [hs] at he ⊢
            rw [hf]
            exact hinv.lasts e he
        have hnp1 : node_parent_prop st1.flat := by rw [hf]; exact hnp
        have hok1 : ok_from (stack_bound st1) (depth_list rs) = true := by
          rw [hsb]
          rw [depth_list_cons, if_pos hb, List.nil_append] at hok
          exact hok
        exact ih st1 st' h' hinv1 hnp1 hok1
      · rw [depth_list_cons, if_neg hb, List.cons_append, List.nil_append] at hok
        simp only [ok_from, Bool.and_eq_true, decide_eq_true_eq] at hok
        obtain ⟨hdle0, hok'⟩ := hok
        rw [← hd, ← hinv.len_eq] at hdle0
        rw [← hd] at hok'
        have hsb1 : stack_bound st1 = nd.depth + 1 := by
          simp [stack_bound, hf, List.getLast?_concat]
        have hold : ∀ k, k < st.flat.length →
            st1.flat.getD k default = st.flat.getD k default := by
          intro k hk
          rw [hf, List.getD_append st.flat [nd] default k hk]
        have hnd : st1.flat.getD st.flat.length default = nd := by
          rw [hf, List.getD_append_right st.flat [nd] default st.flat.length (le_refl _)]
          simp
        have htk : ∀ k, k ≤ st.flat.length → st1.flat.take k = st.flat.take k := by
          intro k hk
          rw [hf, List.take_append_of_le_length hk]
        have hnp_old : ∀ k, k < st.flat.length → 0 < (st1.flat.getD k default).depth →
            (st1.flat.getD k default).parent =
              last_idx_of_depth (st1.flat.take k) ((st1.flat.getD k default).depth - 1) := by
          intro k hk hkd
          rw [hold k hk] at hkd ⊢
          rw [htk k (le_of_lt hk)]
          exact hnp k hk hkd
        
        rcases hc with ⟨hd0, hpn, hs⟩ | ⟨_, hjump, _, _⟩ | ⟨hdpos, hdle, hpar, hs⟩
        · have hinv1 : StackInv st1 := by
            constructor
            · rw [hs, hsb1, hd0]; rfl
            · intro e he
              rw [hs] at he ⊢
              simp only [List.length_cons, List.length_nil] at he
              have he0 : e = 0 := by omega
              subst he0
              rw [hf, last_idx_of_depth_append]
              rw [hd0, if_pos rfl]
              rfl
          have hnp1 : node_parent_prop st1.flat := by
            intro k hk
            rw [hf, List.length_append, List.length_cons, List.length_nil] at hk
            by_cases hkl : k < st.flat.length
            · exact hnp_old k hkl
            · have hke : k = st.flat.length := by omega
              subst hke
              rw [hnd, hd0]
              intro hcon
              exact absurd hcon (by omega)
          have hok1 : ok_from (stack_bound st1) (depth_list rs) = true := by
            rw [hsb1]; exact hok'
          exact ih st1 st' h' hinv1 hnp1 hok1
        · omega
        · have hlen_take : (st.stack.take nd.depth).length = nd.depth := by
            simp [List.length_take]; omega
          have hgetD_take : ∀ e, e < nd.depth →
              (st.stack.take nd.depth).getD e 0 = st.stack.getD e 0 := by
            intro e he
            rw [List.getD_eq_getElem _ 0 (by rw [hlen_take]; exact he),
              List.getD_eq_getElem _ 0 (by omega)]
            simp [List.getElem_take]
          have hinv1 : StackInv st1 := by
            constructor
            · rw [hs, hsb1, List.length_append, hlen_take]; rfl
            · intro e he
              rw [hs, List.length_append, hlen_take] at he
              simp only [List.length_cons, List.length_nil] at he
              by_cases hed : e = nd.depth
              · subst hed
                rw [hs, List.getD_append_right _ _ _ _ (le_of_eq hlen_take)]
                rw [hlen_take, Nat.sub_self]
                rw [hf, last_idx_of_depth_append, if_pos rfl]
                rfl
              · have helt : e < nd.depth := by omega
                rw [hs, List.getD_append _ _ _ _ (by rw [hlen_take]; exact helt)]
                rw [hgetD_take e helt]
                rw [hf, last_idx_of_depth_append, if_neg (by omega)]
                exact hinv.lasts e (by omega)
          have hnp1 : node_parent_prop st1.flat := by
            intro k hk
            rw [hf, List.length_append, List.length_cons, List.length_nil] at hk
            by_cases hkl : k < st.flat.length
            · exact hnp_old k hkl
            · have hke : k = st.flat.length := by omega
              subst hke
              rw [hnd]
              intro _
              rw [htk st.flat.length (le_refl _), List.take_length]
              rw [hpar, hinv.lasts (nd.depth - 1) (by omega)]
          have hok1 : ok_from (stack_bound st1) (depth_list rs) = true := by
            rw [hsb1]; exact hok'
          exact ih st1 st' h' hinv1 hnp1 hok1

/-- Claim C4 (amended): for every successfully parsed plan table the
emitted node depths are exactly `leading_spaces // 2` of the nonblank
rstripped plan texts in order (so a blank plan line produces no node),
and when the depth sequence never jumps (each row's depth is at most
one more than the previous row's, the first at most 0) every node of
positive depth `d` is parented to the most recently emitted node of
depth `d - 1`.  After an indentation jump the parent rule can fail
(`C4_counterexample`), and an indented first row makes the parser
raise `IndexError` rather than attach the node anywhere. -/
theorem C4_depth_and_no_jump_parent (rows : List (String × String))
    (st' : BTState) (h : build_tree rows = some st') :
    st'.flat.map BNode.depth = depth_list rows ∧
    (ok_from 0 (depth_list rows) = true → node_parent_prop st'.flat) := by
  constructor
  · have hd := build_tree_depths rows ⟨[], [], none⟩ st' h
    simpa using hd
  · intro hok
    have hinv : StackInv ⟨[], [], none⟩ := by
      constructor
      · rfl
      · intro e he; simp at he
    have hnp : node_parent_prop (⟨[], [], none⟩ : BTState).flat := by
      intro k hk; simp at hk
    exact (build_tree_nojump rows ⟨[], [], none⟩ st' h hinv hnp hok).2

/-- Counterexample to claim C4 as stated: on the depth sequence
`0, 3, 2` (an indentation jump) the depth-2 node is parented to the
depth-3 node — there is no node of depth 1 at all — because after the
jump the stack positions no longer coincide with depths; and a plan
whose first data row is indented makes `_build_tree` raise an uncaught
`IndexError` (`stack[-1]` on an empty list) instead of attaching the
node to an open ancestor. -/
theorem C4_counterexample :
    build_tree c4_rows = some c4_st ∧
    c4_st.flat.map BNode.depth = [0, 3, 2] ∧
    (c4_st.flat.getD 2 default).depth = 2 ∧
    (c4_st.flat.getD 2 default).parent = some 1 ∧
    (c4_st.flat.getD 1 default).depth = 3 ∧
    last_idx_of_depth (c4_st.flat.take 2) 1 = none ∧
    ¬ node_parent_prop c4_st.flat ∧
    build_tree [("", "  x")] = none := by
  refine ⟨by decide, by decide, by decide, by decide, by decide, by decide,
    ?_, by decide⟩
  intro hnp
  exact absurd (hnp 2 (by decide) (by decide)) (by decide)

/-- Witness for C4: a concrete jump-free table with depths
`0, 1, 1, 2` parses successfully, its depths match, and the no-jump
parent rule holds of the result. -/
theorem C4_depth_and_no_jump_parent_witness :
    build_tree c4w_rows = some c4w_st ∧
    c4w_st.flat.map BNode.depth = depth_list c4w_rows ∧
    node_parent_prop c4w_st.flat :=
  ⟨by decide, (C4_depth_and_no_jump_parent c4w_rows c4w_st (by decide)).1,
   (C4_depth_and_no_jump_parent c4w_rows c4w_st (by decide)).2 (by decide)⟩

end DataFusion

/-- Claim C9: in the DuckDB flat output every node id other than the
root id `0` appears exactly once as a child id in `edges` and `0` never
does, and in every successfully parsed DataFusion plan every emitted
node is a root or points at an earlier emitted node and every emitted
node reaches a root through parent links (no orphans, no duplicate
parents). -/
theorem C9_unique_parent_no_orphans :
    (∀ (t : DuckDB.OpTree) (i : Nat),
        i ∈ (DuckDB.assign_ids t none 0 0).1.map DuckDB.FlatNode.id →
        ((i = 0 →
           ((DuckDB.assign_ids t none 0 0).2.1.map DuckDB.Edge.child).count i = 0) ∧
         (i ≠ 0 →
           ((DuckDB.assign_ids t none 0 0).2.1.map DuckDB.Edge.child).count i = 1))) ∧
    (∀ (rows : List (String × String)) (st' : DataFusion.BTState),
        DataFusion.build_tree rows = some st' →
        DataFusion.parents_lt st'.flat ∧
        ∀ i, i < st'.flat.length → DataFusion.Rooted st'.flat i) := by
  constructor
  · intro t i hi
    have hcount := (DuckDB.assign_ids_edges t none 0 0).count_eq i
    rw [(DuckDB.assign_ids_nodes t none 0 0).1] at hi
    have hmem := List.mem_range'_1.mp hi
    have hpos := DuckDB.tree_size_pos t
    constructor
    · intro h0
      rw [hcount, List.count_eq_zero]
      intro hmem0
      have := List.mem_range'_1.mp hmem0
      omega
    · intro hne
      rw [hcount]
      apply List.count_eq_one_of_mem (List.nodup_range' _ _)
      apply List.mem_range'_1.mpr
      omega
  · intro rows st' h
    have hp := DataFusion.build_tree_parents rows ⟨[], [], none⟩ st' h
      (by intro x hx; simp at hx) (by intro k hk; simp at hk)
    exact ⟨hp.2, DataFusion.rooted_of_parents_lt st'.flat hp.2⟩

/-- Witness for C9: on a two-node operator tree the child id `1`
appears exactly once among the edge children, and on a concrete
two-row plan the parsed nodes point backwards and node `1` reaches a
root. -/
theorem C9_unique_parent_no_orphans_witness :
    ((DuckDB.assign_ids DuckDB.c9_tree none 0 0).2.1.map DuckDB.Edge.child).count 1 = 1 ∧
    DataFusion.parents_lt DataFusion.c9_st.flat ∧
    DataFusion.Rooted DataFusion.c9_st.flat 1 := by
  have h := C9_unique_parent_no_orphans
  refine ⟨(h.1 DuckDB.c9_tree 1 ?_).2 (by decide),
    (h.2 DataFusion.c9_rows DataFusion.c9_st (by decide)).1,
    (h.2 DataFusion.c9_rows DataFusion.c9_st (by decide)).2 1 (by decide)⟩
  rw [(DuckDB.assign_ids_nodes DuckDB.c9_tree none 0 0).1]
  apply List.mem_range'_1.mpr
  have h2 : DuckDB.tree_size DuckDB.c9_tree = 2 := by
    simp [DuckDB.c9_tree, DuckDB.tree_size, DuckDB.forest_size]
  omega

end Embench
